import Mathlib

/-!
# Verification of the Basic-Health-Chat room session coordinator

Shallow embedding of the server-side core of the anonymous telemedicine chat
(`src/backend/src`): the symmetric cipher (`services/encryption.ts`, both the
base64-key and the hex-key variant found in the source), the room store
(`services/room.ts`), the message store (`services/message.ts`), the message
pagination route (`routes/messages.ts`), and the socket coordinator
(`services/websocket.ts`) as a state machine over session map, membership
index, offline queues and the persistent stores.

JS strings are modelled as `List Char` where their character structure
matters (hex/base64/colon handling) and as `String` where they are opaque
identifiers or message contents.  Byte buffers are `List Nat` with an
explicit `< 256` bound.  Fallible code returns `Except String` mirroring the
thrown `Error` messages.
-/

namespace HealthChat

/-! ## Definitions -/

/-- Every element of the list is a byte value. -/
def Bytes (bs : List Nat) : Prop := ∀ b ∈ bs, b < 256

/-- Lower-case hex digit for a value `< 16`. -/
def hexDigitChar (n : Nat) : Char :=
  if n < 10 then Char.ofNat (48 + n) else Char.ofNat (87 + n)

/-- The two hex characters of one byte (high nibble first). -/
def byteToHexChars (b : Nat) : List Char :=
  [hexDigitChar (b / 16), hexDigitChar (b % 16)]

/-- `buf.toString('hex')` over a byte list. -/
def bytesToHexChars : List Nat → List Char
  | [] => []
  | b :: bs => byteToHexChars b ++ bytesToHexChars bs

/-- Value of a hex digit character (upper or lower case), none if invalid. -/
def hexDigitVal (c : Char) : Option Nat :=
  if 48 ≤ c.toNat ∧ c.toNat ≤ 57 then some (c.toNat - 48)
  else if 97 ≤ c.toNat ∧ c.toNat ≤ 102 then some (c.toNat - 87)
  else if 65 ≤ c.toNat ∧ c.toNat ≤ 70 then some (c.toNat - 55)
  else none

/-- Node's `Buffer.from(str, 'hex')`: decodes complete hex pairs and stops at
the first invalid character (or a trailing lone character), discarding the
rest. -/
def nodeHexDecode : List Char → List Nat
  | c1 :: c2 :: rest =>
    match hexDigitVal c1, hexDigitVal c2 with
    | some h, some l => (h * 16 + l) :: nodeHexDecode rest
    | _, _ => []
  | _ => []

def sboxTable : List Nat := [
  0x63, 0x7c, 0x77, 0x7b, 0xf2, 0x6b, 0x6f, 0xc5, 0x30, 0x01, 0x67, 0x2b, 0xfe, 0xd7, 0xab, 0x76,
  0xca, 0x82, 0xc9, 0x7d, 0xfa, 0x59, 0x47, 0xf0, 0xad, 0xd4, 0xa2, 0xaf, 0x9c, 0xa4, 0x72, 0xc0,
  0xb7, 0xfd, 0x93, 0x26, 0x36, 0x3f, 0xf7, 0xcc, 0x34, 0xa5, 0xe5, 0xf1, 0x71, 0xd8, 0x31, 0x15,
  0x04, 0xc7, 0x23, 0xc3, 0x18, 0x96, 0x05, 0x9a, 0x07, 0x12, 0x80, 0xe2, 0xeb, 0x27, 0xb2, 0x75,
  0x09, 0x83, 0x2c, 0x1a, 0x1b, 0x6e, 0x5a, 0xa0, 0x52, 0x3b, 0xd6, 0xb3, 0x29, 0xe3, 0x2f, 0x84,
  0x53, 0xd1, 0x00, 0xed, 0x20, 0xfc, 0xb1, 0x5b, 0x6a, 0xcb, 0xbe, 0x39, 0x4a, 0x4c, 0x58, 0xcf,
  0xd0, 0xef, 0xaa, 0xfb, 0x43, 0x4d, 0x33, 0x85, 0x45, 0xf9, 0x02, 0x7f, 0x50, 0x3c, 0x9f, 0xa8,
  0x51, 0xa3, 0x40, 0x8f, 0x92, 0x9d, 0x38, 0xf5, 0xbc, 0xb6, 0xda, 0x21, 0x10, 0xff, 0xf3, 0xd2,
  0xcd, 0x0c, 0x13, 0xec, 0x5f, 0x97, 0x44, 0x17, 0xc4, 0xa7, 0x7e, 0x3d, 0x64, 0x5d, 0x19, 0x73,
  0x60, 0x81, 0x4f, 0xdc, 0x22, 0x2a, 0x90, 0x88, 0x46, 0xee, 0xb8, 0x14, 0xde, 0x5e, 0x0b, 0xdb,
  0xe0, 0x32, 0x3a, 0x0a, 0x49, 0x06, 0x24, 0x5c, 0xc2, 0xd3, 0xac, 0x62, 0x91, 0x95, 0xe4, 0x79,
  0xe7, 0xc8, 0x37, 0x6d, 0x8d, 0xd5, 0x4e, 0xa9, 0x6c, 0x56, 0xf4, 0xea, 0x65, 0x7a, 0xae, 0x08,
  0xba, 0x78, 0x25, 0x2e, 0x1c, 0xa6, 0xb4, 0xc6, 0xe8, 0xdd, 0x74, 0x1f, 0x4b, 0xbd, 0x8b, 0x8a,
  0x70, 0x3e, 0xb5, 0x66, 0x48, 0x03, 0xf6, 0x0e, 0x61, 0x35, 0x57, 0xb9, 0x86, 0xc1, 0x1d, 0x9e,
  0xe1, 0xf8, 0x98, 0x11, 0x69, 0xd9, 0x8e, 0x94, 0x9b, 0x1e, 0x87, 0xe9, 0xce, 0x55, 0x28, 0xdf,
  0x8c, 0xa1, 0x89, 0x0d, 0xbf, 0xe6, 0x42, 0x68, 0x41, 0x99, 0x2d, 0x0f, 0xb0, 0x54, 0xbb, 0x16]

def invSboxTable : List Nat := [
  0x52, 0x09, 0x6a, 0xd5, 0x30, 0x36, 0xa5, 0x38, 0xbf, 0x40, 0xa3, 0x9e, 0x81, 0xf3, 0xd7, 0xfb,
  0x7c, 0xe3, 0x39, 0x82, 0x9b, 0x2f, 0xff, 0x87, 0x34, 0x8e, 0x43, 0x44, 0xc4, 0xde, 0xe9, 0xcb,
  0x54, 0x7b, 0x94, 0x32, 0xa6, 0xc2, 0x23, 0x3d, 0xee, 0x4c, 0x95, 0x0b, 0x42, 0xfa, 0xc3, 0x4e,
  0x08, 0x2e, 0xa1, 0x66, 0x28, 0xd9, 0x24, 0xb2, 0x76, 0x5b, 0xa2, 0x49, 0x6d, 0x8b, 0xd1, 0x25,
  0x72, 0xf8, 0xf6, 0x64, 0x86, 0x68, 0x98, 0x16, 0xd4, 0xa4, 0x5c, 0xcc, 0x5d, 0x65, 0xb6, 0x92,
  0x6c, 0x70, 0x48, 0x50, 0xfd, 0xed, 0xb9, 0xda, 0x5e, 0x15, 0x46, 0x57, 0xa7, 0x8d, 0x9d, 0x84,
  0x90, 0xd8, 0xab, 0x00, 0x8c, 0xbc, 0xd3, 0x0a, 0xf7, 0xe4, 0x58, 0x05, 0xb8, 0xb3, 0x45, 0x06,
  0xd0, 0x2c, 0x1e, 0x8f, 0xca, 0x3f, 0x0f, 0x02, 0xc1, 0xaf, 0xbd, 0x03, 0x01, 0x13, 0x8a, 0x6b,
  0x3a, 0x91, 0x11, 0x41, 0x4f, 0x67, 0xdc, 0xea, 0x97, 0xf2, 0xcf, 0xce, 0xf0, 0xb4, 0xe6, 0x73,
  0x96, 0xac, 0x74, 0x22, 0xe7, 0xad, 0x35, 0x85, 0xe2, 0xf9, 0x37, 0xe8, 0x1c, 0x75, 0xdf, 0x6e,
  0x47, 0xf1, 0x1a, 0x71, 0x1d, 0x29, 0xc5, 0x89, 0x6f, 0xb7, 0x62, 0x0e, 0xaa, 0x18, 0xbe, 0x1b,
  0xfc, 0x56, 0x3e, 0x4b, 0xc6, 0xd2, 0x79, 0x20, 0x9a, 0xdb, 0xc0, 0xfe, 0x78, 0xcd, 0x5a, 0xf4,
  0x1f, 0xdd, 0xa8, 0x33, 0x88, 0x07, 0xc7, 0x31, 0xb1, 0x12, 0x10, 0x59, 0x27, 0x80, 0xec, 0x5f,
  0x60, 0x51, 0x7f, 0xa9, 0x19, 0xb5, 0x4a, 0x0d, 0x2d, 0xe5, 0x7a, 0x9f, 0x93, 0xc9, 0x9c, 0xef,
  0xa0, 0xe0, 0x3b, 0x4d, 0xae, 0x2a, 0xf5, 0xb0, 0xc8, 0xeb, 0xbb, 0x3c, 0x83, 0x53, 0x99, 0x61,
  0x17, 0x2b, 0x04, 0x7e, 0xba, 0x77, 0xd6, 0x26, 0xe1, 0x69, 0x14, 0x63, 0x55, 0x21, 0x0c, 0x7d]

def sbox (b : Nat) : Nat := sboxTable.getD b 0

def invSbox (b : Nat) : Nat := invSboxTable.getD b 0

/-- Multiplication by `x` in GF(2^8) modulo the AES polynomial `0x11b`. -/
def xtime (x : Nat) : Nat :=
  if x &&& 0x80 = 0 then (2 * x) &&& 0xff else ((2 * x) ^^^ 0x1b) &&& 0xff

/-- GF(2^8) multiplication by the fixed MixColumns coefficients. -/
def mul2 (x : Nat) : Nat := xtime x

def mul3 (x : Nat) : Nat := xtime x ^^^ x

def mul9 (x : Nat) : Nat := xtime (xtime (xtime x)) ^^^ x

def mul11 (x : Nat) : Nat := xtime (xtime (xtime x)) ^^^ xtime x ^^^ x

def mul13 (x : Nat) : Nat := xtime (xtime (xtime x)) ^^^ xtime (xtime x) ^^^ x

def mul14 (x : Nat) : Nat := xtime (xtime (xtime x)) ^^^ xtime (xtime x) ^^^ xtime x

/-- One MixColumns column transform. -/
def mixCol : List Nat → List Nat
  | [a, b, c, d] =>
    [mul2 a ^^^ mul3 b ^^^ c ^^^ d,
     a ^^^ mul2 b ^^^ mul3 c ^^^ d,
     a ^^^ b ^^^ mul2 c ^^^ mul3 d,
     mul3 a ^^^ b ^^^ c ^^^ mul2 d]
  | l => l

/-- One InvMixColumns column transform. -/
def invMixCol : List Nat → List Nat
  | [a, b, c, d] =>
    [mul14 a ^^^ mul11 b ^^^ mul13 c ^^^ mul9 d,
     mul9 a ^^^ mul14 b ^^^ mul11 c ^^^ mul13 d,
     mul13 a ^^^ mul9 b ^^^ mul14 c ^^^ mul11 d,
     mul11 a ^^^ mul13 b ^^^ mul9 c ^^^ mul14 d]
  | l => l

/-- SubBytes over the 16-byte state. -/
def subBytes (s : List Nat) : List Nat := s.map sbox

/-- InvSubBytes over the 16-byte state. -/
def invSubBytes (s : List Nat) : List Nat := s.map invSbox

/-- ShiftRows on the state in input-byte order (`s[r + 4c]`): row `r` is
rotated left by `r`. -/
def shiftRows : List Nat → List Nat
  | [a0, a1, a2, a3, a4, a5, a6, a7, a8, a9, a10, a11, a12, a13, a14, a15] =>
    [a0, a5, a10, a15, a4, a9, a14, a3, a8, a13, a2, a7, a12, a1, a6, a11]
  | s => s

/-- InvShiftRows: row `r` rotated right by `r`. -/
def invShiftRows : List Nat → List Nat
  | [a0, a1, a2, a3, a4, a5, a6, a7, a8, a9, a10, a11, a12, a13, a14, a15] =>
    [a0, a13, a10, a7, a4, a1, a14, a11, a8, a5, a2, a15, a12, a9, a6, a3]
  | s => s

/-- MixColumns over the four consecutive 4-byte columns. -/
def mixColumns : List Nat → List Nat
  | [a0, a1, a2, a3, a4, a5, a6, a7, a8, a9, a10, a11, a12, a13, a14, a15] =>
    mixCol [a0, a1, a2, a3] ++ mixCol [a4, a5, a6, a7] ++
      mixCol [a8, a9, a10, a11] ++ mixCol [a12, a13, a14, a15]
  | s => s

def invMixColumns : List Nat → List Nat
  | [a0, a1, a2, a3, a4, a5, a6, a7, a8, a9, a10, a11, a12, a13, a14, a15] =>
    invMixCol [a0, a1, a2, a3] ++ invMixCol [a4, a5, a6, a7] ++
      invMixCol [a8, a9, a10, a11] ++ invMixCol [a12, a13, a14, a15]
  | s => s

/-- AddRoundKey: pointwise xor of state and round key. -/
def addRoundKey (k s : List Nat) : List Nat := List.zipWith HXor.hXor s k

/-- A well-formed AES state: 16 bytes. -/
def StateOk (s : List Nat) : Prop := s.length = 16 ∧ Bytes s

/-- The 13 middle rounds plus final round of AES encryption, consuming the
round keys in order. -/
def encRounds : List (List Nat) → List Nat → List Nat
  | [], s => s
  | [k], s => addRoundKey k (shiftRows (subBytes s))
  | k :: k2 :: rest, s =>
    encRounds (k2 :: rest) (addRoundKey k (mixColumns (shiftRows (subBytes s))))

/-- Inverse of `encRounds`, consuming the same round keys. -/
def decRounds : List (List Nat) → List Nat → List Nat
  | [], s => s
  | [k], s => invSubBytes (invShiftRows (addRoundKey k s))
  | k :: k2 :: rest, s =>
    invSubBytes (invShiftRows (invMixColumns (addRoundKey k (decRounds (k2 :: rest) s))))

/-- AES block encryption given the expanded round keys (initial
AddRoundKey, then the rounds). -/
def aesEncryptBlock (rks : List (List Nat)) (s : List Nat) : List Nat :=
  match rks with
  | [] => s
  | k0 :: rest => encRounds rest (addRoundKey k0 s)

/-- AES block decryption: the literal inverse composition. -/
def aesDecryptBlock (rks : List (List Nat)) (s : List Nat) : List Nat :=
  match rks with
  | [] => s
  | k0 :: rest => addRoundKey k0 (decRounds rest s)

/-- Well-formed round keys: each 16 bytes. -/
def RoundKeysOk (rks : List (List Nat)) : Prop := ∀ k ∈ rks, k.length = 16 ∧ Bytes k

/-- Round constant bytes, `rcon[i]` for `i = 1..7` (AES-256 needs no more). -/
def rconTable : List Nat := [0, 1, 2, 4, 8, 16, 32, 64, 128, 27, 54]

def rconWord (i : Nat) : List Nat := [rconTable.getD i 0, 0, 0, 0]

def rotWord : List Nat → List Nat
  | [a, b, c, d] => [b, c, d, a]
  | w => w

def subWord (w : List Nat) : List Nat := w.map sbox

def wordXor (a b : List Nat) : List Nat := List.zipWith HXor.hXor a b

/-- Split a byte list into 4-byte words (dropping any ragged tail). -/
def bytesToWords : List Nat → List (List Nat)
  | a :: b :: c :: d :: rest => [a, b, c, d] :: bytesToWords rest
  | _ => []

/-- Key-expansion loop.  `ws` holds the words generated so far, most recent
first; each step prepends word `w[i] = w[i-8] ^^^ temp` per FIPS-197 for
a 256-bit key. -/
def keyExpandLoop : Nat → List (List Nat) → List (List Nat)
  | 0, ws => ws
  | n + 1, ws =>
    let i := ws.length
    let prev := ws.headD []
    let temp :=
      if i % 8 = 0 then wordXor (subWord (rotWord prev)) (rconWord (i / 8))
      else if i % 8 = 4 then subWord prev
      else prev
    keyExpandLoop n (wordXor (ws.getD 7 []) temp :: ws)

/-- Group the 60 expanded words into 15 round keys of 16 bytes. -/
def wordsToRoundKeys : List (List Nat) → List (List Nat)
  | w0 :: w1 :: w2 :: w3 :: rest => (w0 ++ w1 ++ w2 ++ w3) :: wordsToRoundKeys rest
  | _ => []

/-- AES-256 key expansion: 32-byte key to 15 round keys. -/
def expandKey (key : List Nat) : List (List Nat) :=
  wordsToRoundKeys ((keyExpandLoop 52 (bytesToWords key).reverse).reverse)

/-- A well-formed key-schedule word: 4 bytes. -/
def WordOk (w : List Nat) : Prop := w.length = 4 ∧ Bytes w

/-- The base64 alphabet character for a sextet `< 64`. -/
def b64Char (n : Nat) : Char :=
  if n < 26 then Char.ofNat (65 + n)
  else if n < 52 then Char.ofNat (71 + n)
  else if n < 62 then Char.ofNat (n - 4)
  else if n = 62 then '+'
  else '/'

/-- Sextet value of a base64 character, none for `'='` and other
non-alphabet characters. -/
def b64Val (c : Char) : Option Nat :=
  if 65 ≤ c.toNat ∧ c.toNat ≤ 90 then some (c.toNat - 65)
  else if 97 ≤ c.toNat ∧ c.toNat ≤ 122 then some (c.toNat - 71)
  else if 48 ≤ c.toNat ∧ c.toNat ≤ 57 then some (c.toNat + 4)
  else if c = '+' then some 62
  else if c = '/' then some 63
  else none

/-- Standard base64 encoding with `'='` padding. -/
def base64Encode : List Nat → List Char
  | a :: b :: c :: rest =>
    b64Char (a / 4) :: b64Char (a % 4 * 16 + b / 16) ::
      b64Char (b % 16 * 4 + c / 64) :: b64Char (c % 64) :: base64Encode rest
  | [a, b] => [b64Char (a / 4), b64Char (a % 4 * 16 + b / 16), b64Char (b % 16 * 4), '=']
  | [a] => [b64Char (a / 4), b64Char (a % 4 * 16), '=', '=']
  | [] => []

/-- Reassemble bytes from a list of sextet values. -/
def sextetsToBytes : List Nat → List Nat
  | s0 :: s1 :: s2 :: s3 :: rest =>
    (s0 * 4 + s1 / 16) :: (s1 % 16 * 16 + s2 / 4) :: (s2 % 4 * 64 + s3) ::
      sextetsToBytes rest
  | [s0, s1] => [s0 * 4 + s1 / 16]
  | [s0, s1, s2] => [s0 * 4 + s1 / 16, s1 % 16 * 16 + s2 / 4]
  | _ => []

/-- Node's base64 decoding: non-alphabet characters (including the `'='`
padding) are skipped, then sextets are packed back into bytes. -/
def nodeBase64Decode (cs : List Char) : List Nat := sextetsToBytes (cs.filterMap b64Val)

/-- PKCS#7: append `r` copies of `r` where `r = 16 - len % 16 ∈ [1,16]`. -/
def pkcs7Pad (bs : List Nat) : List Nat :=
  bs ++ List.replicate (16 - bs.length % 16) (16 - bs.length % 16)

/-- PKCS#7 unpadding; none if the padding is malformed. -/
def pkcs7Unpad (bs : List Nat) : Option (List Nat) :=
  match bs.getLast? with
  | none => none
  | some n =>
    if 1 ≤ n ∧ n ≤ 16 ∧ n ≤ bs.length ∧ (bs.drop (bs.length - n)).all (fun x => x == n)
    then some (bs.take (bs.length - n))
    else none

/-- Split a byte list into 16-byte blocks (last block may be ragged). -/
def chunk16 : List Nat → List (List Nat)
  | [] => []
  | b :: rest => (b :: rest.take 15) :: chunk16 (rest.drop 15)
termination_by bs => bs.length
decreasing_by simp; omega

/-- CBC encryption over a list of 16-byte blocks, chaining from `prev`
(the IV for the first block). -/
def cbcEncBlocks (rks : List (List Nat)) : List Nat → List (List Nat) → List (List Nat)
  | _, [] => []
  | prev, b :: bs =>
    let c := aesEncryptBlock rks (addRoundKey prev b)
    c :: cbcEncBlocks rks c bs

/-- CBC decryption over a list of 16-byte blocks. -/
def cbcDecBlocks (rks : List (List Nat)) : List Nat → List (List Nat) → List (List Nat)
  | _, [] => []
  | prev, c :: cs => addRoundKey prev (aesDecryptBlock rks c) :: cbcDecBlocks rks c cs

/-- `generateCipherKey` of the room store (`services/room.ts`) and of the
base64-key `services/encryption.ts`: 32 random bytes rendered base64. -/
def generateCipherKey (entropy : List Nat) : List Char := base64Encode entropy

/-- `generateCipherKey` of the hex-key variant: 32 random bytes rendered
lowercase hex. -/
def generateCipherKeyHex (entropy : List Nat) : List Char := bytesToHexChars entropy

/-- `encryptMessage`, parametric in the key-string decoder. -/
def encryptMessageWith (decodeKey : List Char → List Nat) (message : List Nat)
    (keyStr : List Char) (iv : List Nat) : Except String (List Char) :=
  let key := decodeKey keyStr
  if key.length ≠ 32 then .error "Invalid key length"
  else if iv.length ≠ 16 then .error "Invalid initialization vector"
  else .ok (bytesToHexChars iv ++ ':' ::
    bytesToHexChars (cbcEncBlocks (expandKey key) iv (chunk16 (pkcs7Pad message))).flatten)

/-- `decryptMessage`, parametric in the key-string decoder. -/
def decryptMessageWith (decodeKey : List Char → List Nat) (enc : List Char)
    (keyStr : List Char) : Except String (List Nat) :=
  if (enc.splitOn ':').length ≠ 2 then .error "Invalid encrypted message format"
  else if (decodeKey keyStr).length ≠ 32 then .error "Invalid key length"
  else if (nodeHexDecode ((enc.splitOn ':').getD 0 [])).length ≠ 16 then
    .error "Invalid initialization vector"
  else if (nodeHexDecode ((enc.splitOn ':').getD 1 [])).length % 16 ≠ 0 then
    .error "wrong final block length"
  else
    match pkcs7Unpad (cbcDecBlocks (expandKey (decodeKey keyStr))
        (nodeHexDecode ((enc.splitOn ':').getD 0 []))
        (chunk16 (nodeHexDecode ((enc.splitOn ':').getD 1 [])))).flatten with
    | some m => .ok m
    | none => .error "bad decrypt"

/-- The base64-key variant (`encryption.ts`, first copy, lines 21–66). -/
def encryptMessage64 (message : List Nat) (keyStr : List Char) (iv : List Nat) :
    Except String (List Char) :=
  encryptMessageWith nodeBase64Decode message keyStr iv

def decryptMessage64 (enc keyStr : List Char) : Except String (List Nat) :=
  decryptMessageWith nodeBase64Decode enc keyStr

/-- The hex-key variant (`encryption.ts`, second copy, lines 87–132). -/
def encryptMessageHex (message : List Nat) (keyStr : List Char) (iv : List Nat) :
    Except String (List Char) :=
  encryptMessageWith nodeHexDecode message keyStr iv

def decryptMessageHex (enc keyStr : List Char) : Except String (List Nat) :=
  decryptMessageWith nodeHexDecode enc keyStr

/-- JS truthiness of a nullable string (`null`/`undefined`/`''` are falsy). -/
def jsTruthy : Option String → Bool
  | none => false
  | some s => s ≠ ""

/-- JS `content.trim().length === 0` (also covers `!content`): every
character is whitespace. -/
def jsBlank (s : String) : Bool := s.data.all Char.isWhitespace

inductive Role where
  | patient
  | doctor
deriving DecidableEq, Repr

/-- A row of the `rooms` table (`services/room.ts`). -/
structure Room where
  id : String
  doctorId : Option String
  cipherKey : String
deriving DecidableEq, Repr

/-- `SELECT ... FROM rooms WHERE id = $1` (first matching row, none if
absent) — `getRoom` returning null models the `Room not found` path. -/
def getRoom (db : List Room) (roomId : String) : Option Room :=
  db.find? (fun r => r.id == roomId)

/-- `UPDATE rooms SET doctor_id = $1 WHERE id = $2`. -/
def updateRoomDoctor (db : List Room) (roomId : String) (newDoc : Option String) :
    List Room :=
  db.map (fun r => if r.id == roomId then { r with doctorId := newDoc } else r)

/-- `joinRoomAsDoctor` (`services/room.ts`): rejects a missing room and a
room already claimed by a *different* doctor, else binds the doctor. -/
def joinRoomAsDoctor (db : List Room) (roomId doctorId : String) :
    Except String (List Room) :=
  match getRoom db roomId with
  | none => .error "Room not found"
  | some room =>
    if jsTruthy room.doctorId ∧ room.doctorId ≠ some doctorId then
      .error "Room already has a doctor assigned"
    else .ok (updateRoomDoctor db roomId (some doctorId))

/-- `leaveRoom` (`services/room.ts`): a doctor releases the room iff they
are the current claimant; a patient leave touches nothing. -/
def leaveRoom (db : List Room) (roomId : String) (role : Role)
    (doctorId : Option String) : Except String (List Room) :=
  match getRoom db roomId with
  | none => .error "Room not found"
  | some room =>
    if role = .doctor ∧ jsTruthy doctorId then
      if room.doctorId ≠ doctorId then .error "Doctor not in this room"
      else .ok (updateRoomDoctor db roomId none)
    else .ok db

/-- `exchangeKeys` (`services/room.ts`): fetch the room's cipher key. -/
def exchangeKeys (db : List Room) (roomId : String) : Except String String :=
  match getRoom db roomId with
  | none => .error "Room not found"
  | some room => .ok room.cipherKey

/-- A row of the `messages` table (`services/message.ts`); `timestamp`
is the DB-assigned `NOW()`, modelled as a strictly increasing counter,
which also serves as the row id surrogate. -/
structure Message where
  id : Nat
  roomId : String
  senderRole : Role
  senderId : Option String
  content : String
  translatedContent : Option String
  language : String
  targetLanguage : Option String
  timestamp : Nat
  isAudio : Bool
deriving DecidableEq, Repr

structure MessagesDB where
  rows : List Message
  nextSeq : Nat
deriving DecidableEq, Repr

structure SendMessageParams where
  roomId : String
  role : Role
  senderId : Option String
  content : String
  language : String
  targetLanguage : Option String
  translatedContent : Option String
  isAudio : Bool
deriving DecidableEq, Repr

/-- `sendMessage` (`services/message.ts`): validates the role/sender-id
consistency *before* any write, then encrypts and inserts the row,
returning the row with decrypted content. -/
def sendMessage (db : MessagesDB) (p : SendMessageParams) :
    Except String (MessagesDB × Message) :=
  if p.role = .patient ∧ p.senderId ≠ none then
    .error "Patient messages must have null senderId for anonymity"
  else if p.role = .doctor ∧ ¬ jsTruthy p.senderId then
    .error "Doctor messages must have a valid senderId"
  else
    let m : Message :=
      { id := db.nextSeq, roomId := p.roomId, senderRole := p.role,
        senderId := p.senderId, content := p.content,
        translatedContent := p.translatedContent, language := p.language,
        targetLanguage := p.targetLanguage, timestamp := db.nextSeq,
        isAudio := p.isAudio }
    .ok ({ rows := db.rows ++ [m], nextSeq := db.nextSeq + 1 }, m)

/-- The `messages` rows of one room, in insertion order. -/
def roomMsgs (db : MessagesDB) (roomId : String) : List Message :=
  db.rows.filter (fun m => m.roomId == roomId)

/-- `SELECT ... WHERE room_id = $1 ORDER BY timestamp DESC LIMIT $2
OFFSET $3` of `getMessages` (`services/message.ts`). -/
def getMessages (db : MessagesDB) (roomId : String) (limit offset : Nat) :
    List Message :=
  (((db.rows.filter (fun m => m.roomId == roomId)).mergeSort
      (fun a b => b.timestamp ≤ a.timestamp)).drop offset).take limit

/-- The basic UUID shape check of the routes
(`/^[0-9a-f]{8}-[0-9a-f]{4}-[0-9a-f]{4}-[0-9a-f]{4}-[0-9a-f]{12}$/i`). -/
def isHexDigit (c : Char) : Bool := (hexDigitVal c).isSome

def isUuidFormat (s : String) : Bool :=
  s.data.length = 36 &&
    (List.range 36).all (fun i =>
      if i = 8 ∨ i = 13 ∨ i = 18 ∨ i = 23 then s.data.getD i ' ' == '-'
      else isHexDigit (s.data.getD i ' '))

/-- Result of the paginated message route. -/
inductive RouteResult where
  | ok (messages : List Message) (limit offset : Int)
  | badRequest (error : String)
  | notFound (error : String)
deriving DecidableEq, Repr

/-- `GET /api/rooms/:roomId/messages` (`routes/messages.ts`).  The query
parameters arrive as `parseInt` results (`none` = absent or `NaN`), and
`parseInt(q) || default` maps `0` to the default too. -/
def routeGetMessages (rooms : List Room) (db : MessagesDB) (roomId : String)
    (limitQ offsetQ : Option Int) : RouteResult :=
  let limit : Int := match limitQ with | none => 50 | some v => if v = 0 then 50 else v
  let offset : Int := match offsetQ with | none => 0 | some v => if v = 0 then 0 else v
  if ¬ isUuidFormat roomId then .badRequest "Invalid room ID format"
  else if limit < 1 ∨ limit > 100 then .badRequest "Limit must be between 1 and 100"
  else if offset < 0 then .badRequest "Offset must be non-negative"
  else match getRoom rooms roomId with
    | none => .notFound "Room not found"
    | some _ => .ok (getMessages db roomId limit.toNat offset.toNat) limit offset

/-! ## Coordinator (`services/websocket.ts`)

In-memory session map, membership index and offline queues are JS `Map`s /
`Set`s, modelled as insertion-ordered association lists.  The socket.io
transport rooms (`socket.join`/`socket.leave`/`socket.to(room).emit`/
`io.to(room).emit`) are tracked separately, exactly as the transport does.
Each socket-event handler is one step of the state machine; its emissions
are resolved to concrete `(recipient socket, event)` deliveries.  External
randomness/authentication/providers are passed in as data: the handshake
token validation outcome (`auth`) rides on the join event, and the
translation provider is an oracle function (`none` = provider failure,
which `translateMessageSafe` converts to "original text + error flag"). -/

structure Session where
  socketId : String
  roomId : String
  role : Role
  doctorId : Option String
  language : String
deriving DecidableEq, Repr

structure QueuedMessage where
  content : String
  senderRole : Role
  senderId : Option String
  language : String
  timestamp : Nat
deriving DecidableEq, Repr

structure JWTPayload where
  id : String
  email : String
  type : String
deriving DecidableEq, Repr

def alistGet {α : Type} (m : List (String × α)) (k : String) : Option α :=
  (m.find? (fun e => e.1 == k)).map (·.2)

/-- JS `Map.set`: replace in place if the key is present, else append. -/
def alistSet {α : Type} : List (String × α) → String → α → List (String × α)
  | [], k, v => [(k, v)]
  | e :: es, k, v => if e.1 == k then (k, v) :: es else e :: alistSet es k v

def alistDelete {α : Type} (m : List (String × α)) (k : String) : List (String × α) :=
  m.filter (fun e => e.1 != k)

def addToSet (l : List String) (x : String) : List String :=
  if l.contains x then l else l ++ [x]

def removeFromSet (l : List String) (x : String) : List String :=
  l.filter (fun y => y != x)

structure WsState where
  sessions : List (String × Session)
  roomParticipants : List (String × List String)
  offlineMessageQueues : List (String × List QueuedMessage)
  transportRooms : List (String × List String)
  roomsDB : List Room
  messagesDB : MessagesDB
deriving DecidableEq, Repr

def getSession (S : WsState) (socketId : String) : Option Session :=
  alistGet S.sessions socketId

/-- `createSession`: store the session and add the socket to the room's
membership set (creating the set if absent). -/
def createSession (S : WsState) (session : Session) : WsState :=
  { S with
    sessions := alistSet S.sessions session.socketId session,
    roomParticipants :=
      alistSet S.roomParticipants session.roomId
        (addToSet ((alistGet S.roomParticipants session.roomId).getD [])
          session.socketId) }

/-- `deleteSession`: remove the socket from its session's room set (pruning
the entry when the set empties), then drop the session. -/
def deleteSession (S : WsState) (socketId : String) : WsState :=
  let S1 :=
    match alistGet S.sessions socketId with
    | some session =>
      match alistGet S.roomParticipants session.roomId with
      | some participants =>
        let participants' := removeFromSet participants socketId
        if participants'.length = 0 then
          { S with roomParticipants := alistDelete S.roomParticipants session.roomId }
        else
          { S with roomParticipants :=
              alistSet S.roomParticipants session.roomId participants' }
      | none => S
    | none => S
  { S1 with sessions := alistDelete S1.sessions socketId }

/-- `getRoomSessions`: the live sessions of the sockets in the room's
membership set. -/
def getRoomSessions (S : WsState) (roomId : String) : List Session :=
  match alistGet S.roomParticipants roomId with
  | none => []
  | some participants => participants.filterMap (fun sid => alistGet S.sessions sid)

def areBothParticipantsPresent (S : WsState) (roomId : String) : Bool :=
  (getRoomSessions S roomId).any (fun s => s.role == Role.patient) &&
    (getRoomSessions S roomId).any (fun s => s.role == Role.doctor)

def transportMembers (S : WsState) (roomId : String) : List String :=
  (alistGet S.transportRooms roomId).getD []

def transportJoin (S : WsState) (sid roomId : String) : WsState :=
  { S with transportRooms :=
      alistSet S.transportRooms roomId (addToSet (transportMembers S roomId) sid) }

def transportLeave (S : WsState) (sid roomId : String) : WsState :=
  { S with transportRooms :=
      alistSet S.transportRooms roomId (removeFromSet (transportMembers S roomId) sid) }

/-- On a real disconnect, socket.io additionally purges the socket from
every transport room. -/
def transportLeaveAll (S : WsState) (sid : String) : WsState :=
  { S with transportRooms := S.transportRooms.map (fun e => (e.1, removeFromSet e.2 sid)) }

inductive OutEvent where
  | errorMsg (message : String)
  | roomJoined (roomId : String) (role : Role) (doctorId : Option String)
      (patientPresent doctorPresent : Bool)
  | userJoined (role : Role) (doctorId : Option String)
  | newMessage (id : Nat) (content : String) (translatedContent : Option String)
      (senderRole : Role) (senderId : Option String) (language : String)
      (targetLanguage : Option String) (timestamp : Nat) (isAudio : Bool)
      (translationError : Bool)
  | newMessageQueued (content : String) (senderRole : Role) (senderId : Option String)
      (language : String) (timestamp : Nat)
  | messageSent (id : Nat) (timestamp : Nat)
  | messageTranslated (id : Nat) (translatedContent : Option String)
      (targetLanguage : Option String)
  | cipherKeyExchange (cipherKey : String)
  | cipherKeyInvalidated (reason : String)
  | userLeft (role : Role) (doctorId : Option String)
  | languageUpdated (language : String)
deriving DecidableEq, Repr

/-- A resolved emission: which socket receives which event. -/
abbrev Delivery := String × OutEvent

/-- `socket.to(roomId).emit(...)`: all transport members except the sender. -/
def emitToRoomExcept (S : WsState) (roomId sender : String) (ev : OutEvent) :
    List Delivery :=
  (transportMembers S roomId).filterMap
    (fun m => if m == sender then none else some (m, ev))

/-- `io.to(roomId).emit(...)`: every transport member. -/
def emitToRoom (S : WsState) (roomId : String) (ev : OutEvent) : List Delivery :=
  (transportMembers S roomId).map (fun m => (m, ev))

/-- The external translation provider behind `translateMessageSafe`
(content, target language, source language); `none` is any failure
(provider error, empty completion), `some t` a successful translation
(from cache or provider). -/
def TrOracle : Type := String → String → String → Option String

/-- `translateMessageSafe` (`services/translation.ts`): on failure returns
the original content with the error flag set. -/
def translateMessageSafe (tr : TrOracle) (content targetLanguage sourceLanguage : String) :
    String × Bool :=
  match tr content targetLanguage sourceLanguage with
  | some t => (t, false)
  | none => (content, true)

/-- The admission tail of the `join_room` handler, after validation and
doctor authentication: create the session, join the transport room, reply
`room_joined`, broadcast `user_joined`, drain the offline queue to the
joiner, and if both roles are now present emit the cipher key to the whole
room. -/
def joinRoomAdmit (S : WsState) (sid roomId : String) (roleV : Role) (lang : String)
    (doctorId : Option String) : WsState × List Delivery :=
  let S2 := transportJoin (createSession S ⟨sid, roomId, roleV, doctorId, lang⟩) sid roomId
  let existing := (getRoomSessions S2 roomId).filter (fun s => s.socketId != sid)
  let d1 : List Delivery := [(sid, .roomJoined roomId roleV doctorId
      (existing.any (fun s => s.role == Role.patient) || roleV == Role.patient)
      (existing.any (fun s => s.role == Role.doctor) || roleV == Role.doctor))]
  let d2 := emitToRoomExcept S2 roomId sid (.userJoined roleV doctorId)
  let queued := (alistGet S2.offlineMessageQueues roomId).getD []
  let S3 := if queued.length > 0 then
      { S2 with offlineMessageQueues := alistDelete S2.offlineMessageQueues roomId }
    else S2
  let d3 := if queued.length > 0 then
      queued.map (fun q =>
        (sid, OutEvent.newMessageQueued q.content q.senderRole q.senderId q.language
          q.timestamp))
    else []
  let d4 := if areBothParticipantsPresent S3 roomId then
      match exchangeKeys S3.roomsDB roomId with
      | .ok key => emitToRoom S3 roomId (.cipherKeyExchange key)
      | .error _ => [(sid, OutEvent.errorMsg "Failed to exchange cipher keys")]
    else []
  (S3, d1 ++ d2 ++ d3 ++ d4)

/-- The `join_room` handler (`websocket.ts` lines 146–263).  It validates
only the payload and (for doctors) the handshake token; it performs no
room-store lookup. -/
def handleJoinRoom (S : WsState) (sid roomId role : String) (language : Option String)
    (auth : Option JWTPayload) : WsState × List Delivery :=
  if roomId == "" then (S, [(sid, .errorMsg "Room ID is required")])
  else if ¬ (role == "patient" || role == "doctor") then
    (S, [(sid, .errorMsg "Invalid role")])
  else if role == "doctor" then
    match auth with
    | some p =>
      if p.type == "doctor" then
        joinRoomAdmit S sid roomId .doctor (language.getD "en") (some p.id)
      else (S, [(sid, .errorMsg "Doctor authentication required")])
    | none => (S, [(sid, .errorMsg "Doctor authentication required")])
  else joinRoomAdmit S sid roomId .patient (language.getD "en") none

/-- The `send_message` handler (`websocket.ts` lines 266–399). -/
def handleSendMessage (tr : TrOracle) (S : WsState) (sid content : String)
    (language : Option String) (translatedContent targetLanguage : Option String)
    (isAudio : Option Bool) : WsState × List Delivery :=
  match getSession S sid with
  | none => (S, [(sid, .errorMsg "No active session found")])
  | some session =>
    if jsBlank content then (S, [(sid, .errorMsg "Message content is required")])
    else match exchangeKeys S.roomsDB session.roomId with
    | .error e => (S, [(sid, .errorMsg e)])
    | .ok _ =>
      let lang := language.getD "en"
      let others := (getRoomSessions S session.roomId).filter
        (fun s => s.socketId != sid)
      let tres : Option String × Option String × Bool :=
        match others with
        | [] => (translatedContent, targetLanguage, false)
        | first :: _ =>
          if first.language ≠ "" ∧ first.language ≠ lang then
            ((translateMessageSafe tr content first.language lang).1,
              some first.language, (translateMessageSafe tr content first.language lang).2)
          else (translatedContent, targetLanguage, false)
      match sendMessage S.messagesDB
        { roomId := session.roomId, role := session.role, senderId := session.doctorId,
          content := content, language := lang, targetLanguage := tres.2.1,
          translatedContent := tres.1, isAudio := isAudio.getD false } with
      | .error e => (S, [(sid, .errorMsg e)])
      | .ok (db', m) =>
        let S' := { S with messagesDB := db' }
        if others.length > 0 then
          (S', emitToRoomExcept S' session.roomId sid
              (.newMessage m.id m.content m.translatedContent m.senderRole m.senderId
                m.language m.targetLanguage m.timestamp m.isAudio tres.2.2) ++
            (if jsTruthy tres.1 ∧ ¬ tres.2.2 then
              emitToRoomExcept S' session.roomId sid
                (.messageTranslated m.id m.translatedContent m.targetLanguage)
            else []) ++
            [(sid, .messageSent m.id m.timestamp)])
        else
          let q' := ((alistGet S'.offlineMessageQueues session.roomId).getD []) ++
            [⟨m.content, m.senderRole, m.senderId, m.language, m.timestamp⟩]
          ({ S' with offlineMessageQueues :=
                alistSet S'.offlineMessageQueues session.roomId q' },
            [(sid, .messageSent m.id m.timestamp)])

/-- The `update_language` handler (`websocket.ts` lines 654–687). -/
def handleUpdateLanguage (S : WsState) (sid language : String) :
    WsState × List Delivery :=
  match getSession S sid with
  | none => (S, [(sid, .errorMsg "No active session found")])
  | some session =>
    if language == "" then (S, [(sid, .errorMsg "Invalid language")])
    else
      ({ S with sessions := alistSet S.sessions sid { session with language := language } },
        [(sid, .languageUpdated language)])

/-- The `leave_room` handler (`websocket.ts` lines 690–730).  A missing
session is answered with an error event; if the doctor's room release
throws, the catch emits the error and the session is *not* deleted. -/
def handleLeaveRoom (S : WsState) (sid : String) : WsState × List Delivery :=
  match getSession S sid with
  | none => (S, [(sid, .errorMsg "No active session found")])
  | some session =>
    let S1 := transportLeave S sid session.roomId
    let d := emitToRoomExcept S1 session.roomId sid (.cipherKeyInvalidated "participant_left") ++
      emitToRoomExcept S1 session.roomId sid (.userLeft session.role session.doctorId)
    if session.role = .doctor ∧ jsTruthy session.doctorId then
      match leaveRoom S1.roomsDB session.roomId session.role session.doctorId with
      | .ok db' => (deleteSession { S1 with roomsDB := db' } sid, d)
      | .error e => (S1, d ++ [(sid, .errorMsg e)])
    else (deleteSession S1 sid, d)

/-- The `disconnect` handler (`websocket.ts` lines 733–766).  A missing
session is a silent no-op; room-release errors are logged, not emitted. -/
def handleDisconnect (S : WsState) (sid : String) : WsState × List Delivery :=
  match getSession S sid with
  | none => (S, [])
  | some session =>
    let S1 := transportLeave S sid session.roomId
    let d := emitToRoomExcept S1 session.roomId sid
        (.cipherKeyInvalidated "participant_disconnected") ++
      emitToRoomExcept S1 session.roomId sid (.userLeft session.role session.doctorId)
    let S2 := if session.role = .doctor ∧ jsTruthy session.doctorId then
        match leaveRoom S1.roomsDB session.roomId session.role session.doctorId with
        | .ok db' => { S1 with roomsDB := db' }
        | .error _ => S1
      else S1
    (transportLeaveAll (deleteSession S2 session.socketId) sid, d)

inductive InEvent where
  | joinRoom (sid roomId role : String) (language : Option String)
      (auth : Option JWTPayload)
  | sendMsg (sid content : String) (language : Option String)
      (translatedContent targetLanguage : Option String) (isAudio : Option Bool)
  | updateLanguage (sid language : String)
  | leaveRoomEv (sid : String)
  | disconnect (sid : String)
deriving DecidableEq, Repr

/-- One socket event, as one atomic step of the coordinator. -/
def step (tr : TrOracle) (S : WsState) : InEvent → WsState × List Delivery
  | .joinRoom sid roomId role language auth => handleJoinRoom S sid roomId role language auth
  | .sendMsg sid content language tc tl ia =>
    handleSendMessage tr S sid content language tc tl ia
  | .updateLanguage sid language => handleUpdateLanguage S sid language
  | .leaveRoomEv sid => handleLeaveRoom S sid
  | .disconnect sid => handleDisconnect S sid

/-- Run a trace of events, accumulating all deliveries. -/
def run (tr : TrOracle) : WsState → List InEvent → WsState × List Delivery
  | S, [] => (S, [])
  | S, e :: es =>
    ((run tr (step tr S e).1 es).1, (step tr S e).2 ++ (run tr (step tr S e).1 es).2)

/-- Fresh coordinator process over a given rooms table. -/
def initState (rooms : List Room) : WsState :=
  ⟨[], [], [], [], rooms, ⟨[], 0⟩⟩

/-! ## Association-list (JS `Map`/`Set`) lemmas -/

/-- Invariant of the persisted message table: anonymity of patient rows,
doctor rows carry a sender id, strictly increasing timestamps bounded by
the next sequence value. -/
def DbInv (db : MessagesDB) : Prop :=
  (∀ m ∈ db.rows, (m.senderRole = .patient → m.senderId = none) ∧
    (m.senderRole = .doctor → m.senderId ≠ none)) ∧
  db.rows.Pairwise (fun a b => a.timestamp < b.timestamp) ∧
  (∀ m ∈ db.rows, m.timestamp < db.nextSeq)

def isErrorMsg : OutEvent → Bool
  | .errorMsg _ => true
  | _ => false

def isCipherKeyExchange : OutEvent → Bool
  | .cipherKeyExchange _ => true
  | _ => false

def isNewMessageQueued : OutEvent → Bool
  | .newMessageQueued _ _ _ _ _ => true
  | _ => false

/-- Does the event carry (as a fresh or drained message) the given content? -/
def carriesContent (c : String) : OutEvent → Bool
  | .newMessage _ content _ _ _ _ _ _ _ _ => content == c
  | .newMessageQueued content _ _ _ _ => content == c
  | _ => false

/-! ## C1 support -/

/-- The row `sendMessage` inserts for accepted parameters. -/
def mkRow (db : MessagesDB) (p : SendMessageParams) : Message :=
  { id := db.nextSeq, roomId := p.roomId, senderRole := p.role, senderId := p.senderId,
    content := p.content, translatedContent := p.translatedContent,
    language := p.language, targetLanguage := p.targetLanguage,
    timestamp := db.nextSeq, isAudio := p.isAudio }

/-- The sender's peers: the room registry's sessions minus the sender. -/
def sendOthers (S : WsState) (sid : String) (session : Session) : List Session :=
  (getRoomSessions S session.roomId).filter (fun s => s.socketId != sid)

/-- The (translated-content, target-language, errored) triple the
`send_message` handler computes from the first peer. -/
def tresOf (tr : TrOracle) (content lang : String) (tc tl : Option String) :
    List Session → Option String × Option String × Bool
  | [] => (tc, tl, false)
  | first :: _ =>
    if first.language ≠ "" ∧ first.language ≠ lang then
      ((translateMessageSafe tr content first.language lang).1, some first.language,
        (translateMessageSafe tr content first.language lang).2)
    else (tc, tl, false)

/-- One registry operation of the coordinator session store. -/
inductive RegOp where
  | create (session : Session)
  | delete (socketId : String)
deriving DecidableEq, Repr

def applyRegOps : WsState → List RegOp → WsState
  | S, [] => S
  | S, .create s :: ops => applyRegOps (createSession S s) ops
  | S, .delete sid :: ops => applyRegOps (deleteSession S sid) ops

/-- Creates only happen for sockets with no current session (each socket
joins at most once between leaves). -/
def FreshRegOps : WsState → List RegOp → Prop
  | _, [] => True
  | S, .create s :: ops =>
    alistGet S.sessions s.socketId = none ∧ FreshRegOps (createSession S s) ops
  | S, .delete sid :: ops => FreshRegOps (deleteSession S sid) ops

/-- The claimed index invariant: the membership index maps each room id to
exactly the sockets whose current session has that room id, and no entry
holds an empty set. -/
def IndexInv (S : WsState) : Prop :=
  (∀ roomId sid, sid ∈ (alistGet S.roomParticipants roomId).getD [] ↔
    ∃ session, alistGet S.sessions sid = some session ∧ session.roomId = roomId) ∧
  (∀ roomId participants, alistGet S.roomParticipants roomId = some participants →
    participants ≠ [])

/-! ## Theorems -/

theorem bytes_nil : Bytes [] := by intro b h; cases h

theorem bytes_cons {b : Nat} {bs : List Nat} (hb : b < 256) (hbs : Bytes bs) :
    Bytes (b :: bs) := by
  intro x hx
  rcases List.mem_cons.mp hx with h | h
  · exact h ▸ hb
  · exact hbs x h

theorem bytes_of_cons {b : Nat} {bs : List Nat} (h : Bytes (b :: bs)) :
    b < 256 ∧ Bytes bs :=
  ⟨h b (List.mem_cons_self b bs), fun x hx => h x (List.mem_cons_of_mem b hx)⟩

theorem bytes_append {as bs : List Nat} (ha : Bytes as) (hb : Bytes bs) :
    Bytes (as ++ bs) := by
  intro x hx
  rcases List.mem_append.mp hx with h | h
  · exact ha x h
  · exact hb x h

/-! ## Lowercase hex encoding (Node `buf.toString('hex')`) and
    Node's hex decoding (`Buffer.from(str, 'hex')`). -/

theorem hexDigitVal_hexDigitChar : ∀ n : Fin 16,
    hexDigitVal (hexDigitChar n.val) = some n.val := by decide

theorem hexDigitChar_ne_colon : ∀ n : Fin 16, hexDigitChar n.val ≠ ':' := by decide

theorem nodeHexDecode_bytesToHexChars {bs : List Nat} (h : Bytes bs) :
    nodeHexDecode (bytesToHexChars bs) = bs := by
  induction bs with
  | nil => rfl
  | cons b bs ih =>
    obtain ⟨hb, hbs⟩ := bytes_of_cons h
    have hhi : b / 16 < 16 := Nat.div_lt_of_lt_mul (by omega)
    have hlo : b % 16 < 16 := Nat.mod_lt _ (by omega)
    have e1 := hexDigitVal_hexDigitChar ⟨b / 16, hhi⟩
    have e2 := hexDigitVal_hexDigitChar ⟨b % 16, hlo⟩
    simp only [Fin.val_mk] at e1 e2
    have hsh : bytesToHexChars (b :: bs) =
        hexDigitChar (b / 16) :: hexDigitChar (b % 16) :: bytesToHexChars bs := by
      simp [bytesToHexChars, byteToHexChars]
    rw [hsh, nodeHexDecode, e1, e2, ih hbs]
    change (b / 16 * 16 + b % 16) :: bs = b :: bs
    have : b / 16 * 16 + b % 16 = b := by omega
    rw [this]

theorem length_nodeHexDecode : ∀ cs : List Char,
    (nodeHexDecode cs).length * 2 ≤ cs.length
  | [] => by simp [nodeHexDecode]
  | [c] => by simp [nodeHexDecode]
  | c1 :: c2 :: rest => by
    have ih := length_nodeHexDecode rest
    rcases h1 : hexDigitVal c1 with _ | v1 <;> rcases h2 : hexDigitVal c2 with _ | v2 <;>
      simp only [nodeHexDecode, h1, h2, List.length_cons, List.length_nil] <;> omega

theorem mem_bytesToHexChars_ne_colon {bs : List Nat} (h : Bytes bs) :
    ∀ c ∈ bytesToHexChars bs, c ≠ ':' := by
  induction bs with
  | nil => intro c hc; cases hc
  | cons b bs ih =>
    obtain ⟨hb, hbs⟩ := bytes_of_cons h
    intro c hc
    have hhi : b / 16 < 16 := Nat.div_lt_of_lt_mul (by omega)
    have hlo : b % 16 < 16 := Nat.mod_lt _ (by omega)
    simp only [bytesToHexChars, byteToHexChars, List.cons_append, List.nil_append,
      List.mem_cons] at hc
    rcases hc with rfl | hc
    · exact hexDigitChar_ne_colon ⟨b / 16, hhi⟩
    rcases hc with rfl | hc
    · exact hexDigitChar_ne_colon ⟨b % 16, hlo⟩
    · exact ih hbs c hc

/-! ## AES-256 block cipher

Modelled from the spec: `encryptMessage`/`decryptMessage` call Node's
`crypto.createCipheriv('aes-256-cbc', key, iv)`; the cipher itself lives in
the crypto library, not in the repository, and is embedded here following
the spec's fixed choice (§6): AES-256, CBC mode, PKCS#7 padding.  The state
is the 16-byte block in input order (columns are consecutive 4-byte
groups).  Decryption is defined as the literal inverse composition, which
is extensionally the unique inverse any correct AES implementation
computes. -/

set_option maxRecDepth 100000 in
theorem invSbox_sbox : ∀ b : Fin 256, invSbox (sbox b.val) = b.val := by decide

set_option maxRecDepth 100000 in
theorem sbox_lt : ∀ b : Fin 256, sbox b.val < 256 := by decide

theorem two_mul_xor (x y : Nat) : 2 * (x ^^^ y) = 2 * x ^^^ 2 * y := by
  have h1 : ∀ z : Nat, 2 * z = z <<< 1 := by
    intro z; rw [Nat.shiftLeft_eq]; ring
  rw [h1, h1, h1]
  apply Nat.eq_of_testBit_eq
  intro i
  simp only [Nat.testBit_shiftLeft, Nat.testBit_xor, ge_iff_le]
  cases Decidable.em (1 ≤ i) with
  | inl h => simp [h]
  | inr h => simp [h]

theorem and128_eq_ite (x : Nat) : x &&& 128 = if x.testBit 7 then 128 else 0 := by
  have h : (128 : Nat) = 2 ^ 7 := by norm_num
  rw [h, Nat.and_two_pow]
  cases hx : x.testBit 7 <;> simp

theorem xor_lcomm (a b c : Nat) : a ^^^ (b ^^^ c) = b ^^^ (a ^^^ c) := by
  rw [← Nat.xor_assoc, Nat.xor_comm a b, Nat.xor_assoc]

theorem xtime_xor (x y : Nat) : xtime (x ^^^ y) = xtime x ^^^ xtime y := by
  have hxy : (x ^^^ y) &&& 128 = (x &&& 128) ^^^ (y &&& 128) :=
    Nat.and_xor_distrib_right
  have hdist : ∀ a b : Nat, (a ^^^ b) &&& 255 = (a &&& 255) ^^^ (b &&& 255) := by
    intro a b; exact Nat.and_xor_distrib_right
  simp only [xtime, hxy, and128_eq_ite, two_mul_xor]
  cases hx : x.testBit 7 <;> cases hy : y.testBit 7 <;>
    simp only [if_true, if_false, Nat.xor_self, Nat.zero_xor, Nat.xor_zero] <;>
    norm_num <;>
    simp [hdist, Nat.xor_assoc, Nat.xor_comm, xor_lcomm, Nat.xor_self]

theorem xtime_lt (x : Nat) : xtime x < 256 := by
  unfold xtime
  cases Decidable.em (x &&& 128 = 0) with
  | inl h => simp only [h, if_true]; exact Nat.lt_succ_of_le Nat.and_le_right
  | inr h => simp only [h, if_false]; exact Nat.lt_succ_of_le Nat.and_le_right

theorem xor_lt_256 {x y : Nat} (hx : x < 256) (hy : y < 256) : x ^^^ y < 256 := by
  have h : (256 : Nat) = 2 ^ 8 := by norm_num
  rw [h] at hx hy ⊢
  exact Nat.xor_lt_two_pow hx hy

theorem mul2_xor (x y : Nat) : mul2 (x ^^^ y) = mul2 x ^^^ mul2 y := xtime_xor x y

theorem mul3_xor (x y : Nat) : mul3 (x ^^^ y) = mul3 x ^^^ mul3 y := by
  simp [mul3, xtime_xor, Nat.xor_assoc, Nat.xor_comm, xor_lcomm]

theorem mul9_xor (x y : Nat) : mul9 (x ^^^ y) = mul9 x ^^^ mul9 y := by
  simp [mul9, xtime_xor, Nat.xor_assoc, Nat.xor_comm, xor_lcomm]

theorem mul11_xor (x y : Nat) : mul11 (x ^^^ y) = mul11 x ^^^ mul11 y := by
  simp [mul11, xtime_xor, Nat.xor_assoc, Nat.xor_comm, xor_lcomm]

theorem mul13_xor (x y : Nat) : mul13 (x ^^^ y) = mul13 x ^^^ mul13 y := by
  simp [mul13, xtime_xor, Nat.xor_assoc, Nat.xor_comm, xor_lcomm]

theorem mul14_xor (x y : Nat) : mul14 (x ^^^ y) = mul14 x ^^^ mul14 y := by
  simp [mul14, xtime_xor, Nat.xor_assoc, Nat.xor_comm, xor_lcomm]

theorem mul2_lt (x : Nat) : mul2 x < 256 := xtime_lt x

theorem mul3_lt {x : Nat} (h : x < 256) : mul3 x < 256 := xor_lt_256 (xtime_lt x) h

theorem mul9_lt {x : Nat} (h : x < 256) : mul9 x < 256 := xor_lt_256 (xtime_lt _) h

theorem mul11_lt {x : Nat} (h : x < 256) : mul11 x < 256 :=
  xor_lt_256 (xor_lt_256 (xtime_lt _) (xtime_lt _)) h

theorem mul13_lt {x : Nat} (h : x < 256) : mul13 x < 256 :=
  xor_lt_256 (xor_lt_256 (xtime_lt _) (xtime_lt _)) h

theorem mul14_lt (x : Nat) : mul14 x < 256 :=
  xor_lt_256 (xor_lt_256 (xtime_lt _) (xtime_lt _)) (xtime_lt _)

set_option maxRecDepth 100000 in
theorem gfDiag : ∀ x : Fin 256,
    mul14 (mul2 x.val) ^^^ mul11 x.val ^^^ mul13 x.val ^^^ mul9 (mul3 x.val) = x.val := by
  decide

set_option maxRecDepth 100000 in
theorem gfOff1 : ∀ x : Fin 256,
    mul14 (mul3 x.val) ^^^ mul11 (mul2 x.val) ^^^ mul13 x.val ^^^ mul9 x.val = 0 := by
  decide

set_option maxRecDepth 100000 in
theorem gfOff2 : ∀ x : Fin 256,
    mul14 x.val ^^^ mul11 (mul3 x.val) ^^^ mul13 (mul2 x.val) ^^^ mul9 x.val = 0 := by
  decide

set_option maxRecDepth 100000 in
theorem gfOff3 : ∀ x : Fin 256,
    mul14 x.val ^^^ mul11 x.val ^^^ mul13 (mul3 x.val) ^^^ mul9 (mul2 x.val) = 0 := by
  decide

theorem invMixCol_mixCol {a b c d : Nat}
    (ha : a < 256) (hb : b < 256) (hc : c < 256) (hd : d < 256) :
    invMixCol (mixCol [a, b, c, d]) = [a, b, c, d] := by
  have g0a := gfDiag ⟨a, ha⟩
  have g0b := gfDiag ⟨b, hb⟩
  have g0c := gfDiag ⟨c, hc⟩
  have g0d := gfDiag ⟨d, hd⟩
  have g1a := gfOff1 ⟨a, ha⟩
  have g1b := gfOff1 ⟨b, hb⟩
  have g1c := gfOff1 ⟨c, hc⟩
  have g1d := gfOff1 ⟨d, hd⟩
  have g2a := gfOff2 ⟨a, ha⟩
  have g2b := gfOff2 ⟨b, hb⟩
  have g2c := gfOff2 ⟨c, hc⟩
  have g2d := gfOff2 ⟨d, hd⟩
  have g3a := gfOff3 ⟨a, ha⟩
  have g3b := gfOff3 ⟨b, hb⟩
  have g3c := gfOff3 ⟨c, hc⟩
  have g3d := gfOff3 ⟨d, hd⟩
  simp only [Fin.val_mk] at g0a g0b g0c g0d g1a g1b g1c g1d g2a g2b g2c g2d g3a g3b g3c g3d
  show invMixCol
      [mul2 a ^^^ mul3 b ^^^ c ^^^ d,
       a ^^^ mul2 b ^^^ mul3 c ^^^ d,
       a ^^^ b ^^^ mul2 c ^^^ mul3 d,
       mul3 a ^^^ b ^^^ c ^^^ mul2 d] = [a, b, c, d]
  show
      [mul14 _ ^^^ mul11 _ ^^^ mul13 _ ^^^ mul9 _,
       mul9 _ ^^^ mul14 _ ^^^ mul11 _ ^^^ mul13 _,
       mul13 _ ^^^ mul9 _ ^^^ mul14 _ ^^^ mul11 _,
       mul11 _ ^^^ mul13 _ ^^^ mul9 _ ^^^ mul14 _] = [a, b, c, d]
  simp only [mul14_xor, mul11_xor, mul13_xor, mul9_xor, List.cons.injEq, and_true]
  refine ⟨?_, ?_, ?_, ?_⟩
  · calc (mul14 (mul2 a) ^^^ mul14 (mul3 b) ^^^ mul14 c ^^^ mul14 d) ^^^
        (mul11 a ^^^ mul11 (mul2 b) ^^^ mul11 (mul3 c) ^^^ mul11 d) ^^^
        (mul13 a ^^^ mul13 b ^^^ mul13 (mul2 c) ^^^ mul13 (mul3 d)) ^^^
        (mul9 (mul3 a) ^^^ mul9 b ^^^ mul9 c ^^^ mul9 (mul2 d))
        = (mul14 (mul2 a) ^^^ mul11 a ^^^ mul13 a ^^^ mul9 (mul3 a)) ^^^
          ((mul14 (mul3 b) ^^^ mul11 (mul2 b) ^^^ mul13 b ^^^ mul9 b) ^^^
           ((mul14 c ^^^ mul11 (mul3 c) ^^^ mul13 (mul2 c) ^^^ mul9 c) ^^^
            (mul14 d ^^^ mul11 d ^^^ mul13 (mul3 d) ^^^ mul9 (mul2 d)))) := by
          simp [Nat.xor_assoc, Nat.xor_comm, xor_lcomm]
      _ = a := by rw [g0a, g1b, g2c, g3d]; simp
  · calc (mul9 (mul2 a) ^^^ mul9 (mul3 b) ^^^ mul9 c ^^^ mul9 d) ^^^
        (mul14 a ^^^ mul14 (mul2 b) ^^^ mul14 (mul3 c) ^^^ mul14 d) ^^^
        (mul11 a ^^^ mul11 b ^^^ mul11 (mul2 c) ^^^ mul11 (mul3 d)) ^^^
        (mul13 (mul3 a) ^^^ mul13 b ^^^ mul13 c ^^^ mul13 (mul2 d))
        = (mul14 a ^^^ mul11 a ^^^ mul13 (mul3 a) ^^^ mul9 (mul2 a)) ^^^
          ((mul14 (mul2 b) ^^^ mul11 b ^^^ mul13 b ^^^ mul9 (mul3 b)) ^^^
           ((mul14 (mul3 c) ^^^ mul11 (mul2 c) ^^^ mul13 c ^^^ mul9 c) ^^^
            (mul14 d ^^^ mul11 (mul3 d) ^^^ mul13 (mul2 d) ^^^ mul9 d))) := by
          simp [Nat.xor_assoc, Nat.xor_comm, xor_lcomm]
      _ = b := by rw [g3a, g0b, g1c, g2d]; simp
  · calc (mul13 (mul2 a) ^^^ mul13 (mul3 b) ^^^ mul13 c ^^^ mul13 d) ^^^
        (mul9 a ^^^ mul9 (mul2 b) ^^^ mul9 (mul3 c) ^^^ mul9 d) ^^^
        (mul14 a ^^^ mul14 b ^^^ mul14 (mul2 c) ^^^ mul14 (mul3 d)) ^^^
        (mul11 (mul3 a) ^^^ mul11 b ^^^ mul11 c ^^^ mul11 (mul2 d))
        = (mul14 a ^^^ mul11 (mul3 a) ^^^ mul13 (mul2 a) ^^^ mul9 a) ^^^
          ((mul14 b ^^^ mul11 b ^^^ mul13 (mul3 b) ^^^ mul9 (mul2 b)) ^^^
           ((mul14 (mul2 c) ^^^ mul11 c ^^^ mul13 c ^^^ mul9 (mul3 c)) ^^^
            (mul14 (mul3 d) ^^^ mul11 (mul2 d) ^^^ mul13 d ^^^ mul9 d))) := by
          simp [Nat.xor_assoc, Nat.xor_comm, xor_lcomm]
      _ = c := by rw [g2a, g3b, g0c, g1d]; simp
  · calc (mul11 (mul2 a) ^^^ mul11 (mul3 b) ^^^ mul11 c ^^^ mul11 d) ^^^
        (mul13 a ^^^ mul13 (mul2 b) ^^^ mul13 (mul3 c) ^^^ mul13 d) ^^^
        (mul9 a ^^^ mul9 b ^^^ mul9 (mul2 c) ^^^ mul9 (mul3 d)) ^^^
        (mul14 (mul3 a) ^^^ mul14 b ^^^ mul14 c ^^^ mul14 (mul2 d))
        = (mul14 (mul3 a) ^^^ mul11 (mul2 a) ^^^ mul13 a ^^^ mul9 a) ^^^
          ((mul14 b ^^^ mul11 (mul3 b) ^^^ mul13 (mul2 b) ^^^ mul9 b) ^^^
           ((mul14 c ^^^ mul11 c ^^^ mul13 (mul3 c) ^^^ mul9 (mul2 c)) ^^^
            (mul14 (mul2 d) ^^^ mul11 d ^^^ mul13 d ^^^ mul9 (mul3 d)))) := by
          simp [Nat.xor_assoc, Nat.xor_comm, xor_lcomm]
      _ = d := by rw [g1a, g2b, g3c, g0d]; simp

theorem invSubBytes_subBytes {s : List Nat} (h : Bytes s) :
    invSubBytes (subBytes s) = s := by
  induction s with
  | nil => rfl
  | cons b bs ih =>
    obtain ⟨hb, hbs⟩ := bytes_of_cons h
    have := invSbox_sbox ⟨b, hb⟩
    simp only [Fin.val_mk] at this
    simp [subBytes, invSubBytes] at ih ⊢
    exact ⟨this, ih hbs⟩

set_option maxRecDepth 100000 in
theorem bytes_subBytes {s : List Nat} : Bytes (subBytes s) := by
  intro x hx
  obtain ⟨b, _, rfl⟩ := List.mem_map.mp hx
  by_cases hb : b < 256
  · have := sbox_lt ⟨b, hb⟩
    simpa using this
  · have : sbox b = 0 := by
      unfold sbox
      apply List.getD_eq_default
      simp only [not_lt] at hb
      have : sboxTable.length = 256 := by decide
      omega
    simp [this]

theorem length_subBytes (s : List Nat) : (subBytes s).length = s.length :=
  List.length_map _ _

theorem length_invSubBytes (s : List Nat) : (invSubBytes s).length = s.length :=
  List.length_map _ _

theorem invShiftRows_shiftRows_explicit
    (a0 a1 a2 a3 a4 a5 a6 a7 a8 a9 a10 a11 a12 a13 a14 a15 : Nat) :
    invShiftRows (shiftRows
      [a0, a1, a2, a3, a4, a5, a6, a7, a8, a9, a10, a11, a12, a13, a14, a15]) =
      [a0, a1, a2, a3, a4, a5, a6, a7, a8, a9, a10, a11, a12, a13, a14, a15] := rfl

theorem addRoundKey_addRoundKey {k s : List Nat} (h : k.length = s.length) :
    addRoundKey k (addRoundKey k s) = s := by
  induction s generalizing k with
  | nil => simp [addRoundKey]
  | cons b bs ih =>
    cases k with
    | nil => simp at h
    | cons kb kbs =>
      simp only [List.length_cons, Nat.succ.injEq] at h
      simp only [addRoundKey, List.zipWith_cons_cons]
      rw [show b ^^^ kb ^^^ kb = b by rw [Nat.xor_assoc, Nat.xor_self, Nat.xor_zero]]
      exact congrArg (b :: ·) (ih h)

theorem length_addRoundKey (k s : List Nat) :
    (addRoundKey k s).length = min s.length k.length := by
  simp [addRoundKey]

theorem bytes_addRoundKey {k s : List Nat} (hk : Bytes k) (hs : Bytes s) :
    Bytes (addRoundKey k s) := by
  induction s generalizing k with
  | nil => intro x hx; simp [addRoundKey] at hx
  | cons b bs ih =>
    cases k with
    | nil => intro x hx; simp [addRoundKey] at hx
    | cons kb kbs =>
      obtain ⟨hkb, hkbs⟩ := bytes_of_cons hk
      obtain ⟨hb, hbs⟩ := bytes_of_cons hs
      simp only [addRoundKey, List.zipWith_cons_cons]
      exact bytes_cons (xor_lt_256 hb hkb) (ih hkbs hbs)

/-- Destructuring a list of length 16 into its elements. -/
theorem exists_sixteen {s : List Nat} (h : s.length = 16) :
    ∃ a0 a1 a2 a3 a4 a5 a6 a7 a8 a9 a10 a11 a12 a13 a14 a15 : Nat,
      s = [a0, a1, a2, a3, a4, a5, a6, a7, a8, a9, a10, a11, a12, a13, a14, a15] := by
  match s, h with
  | [a0, a1, a2, a3, a4, a5, a6, a7, a8, a9, a10, a11, a12, a13, a14, a15], _ =>
    exact ⟨a0, a1, a2, a3, a4, a5, a6, a7, a8, a9, a10, a11, a12, a13, a14, a15,
      rfl⟩

theorem stateOk_subBytes {s : List Nat} (h : StateOk s) : StateOk (subBytes s) :=
  ⟨by rw [length_subBytes, h.1], bytes_subBytes⟩

theorem bound_xor4 {a b c d : Nat} (ha : a < 256) (hb : b < 256) (hc : c < 256)
    (hd : d < 256) : a ^^^ b ^^^ c ^^^ d < 256 :=
  xor_lt_256 (xor_lt_256 (xor_lt_256 ha hb) hc) hd

theorem stateOk_shiftRows {s : List Nat} (h : StateOk s) : StateOk (shiftRows s) := by
  obtain ⟨h16, hb⟩ := h
  obtain ⟨a0, a1, a2, a3, a4, a5, a6, a7, a8, a9, a10, a11, a12, a13, a14, a15, rfl⟩ :=
    exists_sixteen h16
  have hm : ∀ x ∈ [a0, a1, a2, a3, a4, a5, a6, a7, a8, a9, a10, a11, a12, a13, a14, a15],
      x < 256 := hb
  simp only [List.mem_cons, List.not_mem_nil, or_false, forall_eq_or_imp, forall_eq] at hm
  obtain ⟨h0, h1, h2, h3, h4, h5, h6, h7, h8, h9, h10, h11, h12, h13, h14, h15⟩ := hm
  refine ⟨rfl, ?_⟩
  intro x hx
  simp only [shiftRows, List.mem_cons, List.not_mem_nil, or_false] at hx
  rcases hx with rfl | rfl | rfl | rfl | rfl | rfl | rfl | rfl | rfl | rfl | rfl | rfl |
    rfl | rfl | rfl | rfl <;> assumption

theorem stateOk_mixColumns {s : List Nat} (h : StateOk s) : StateOk (mixColumns s) := by
  obtain ⟨h16, hb⟩ := h
  obtain ⟨a0, a1, a2, a3, a4, a5, a6, a7, a8, a9, a10, a11, a12, a13, a14, a15, rfl⟩ :=
    exists_sixteen h16
  have hm : ∀ x ∈ [a0, a1, a2, a3, a4, a5, a6, a7, a8, a9, a10, a11, a12, a13, a14, a15],
      x < 256 := hb
  simp only [List.mem_cons, List.not_mem_nil, or_false, forall_eq_or_imp, forall_eq] at hm
  obtain ⟨h0, h1, h2, h3, h4, h5, h6, h7, h8, h9, h10, h11, h12, h13, h14, h15⟩ := hm
  refine ⟨rfl, ?_⟩
  intro x hx
  simp only [mixColumns, mixCol, List.cons_append, List.nil_append, List.mem_cons,
    List.not_mem_nil, or_false] at hx
  rcases hx with rfl | rfl | rfl | rfl | rfl | rfl | rfl | rfl | rfl | rfl | rfl | rfl |
    rfl | rfl | rfl | rfl <;>
    first
    | exact bound_xor4 (mul2_lt _) (mul3_lt (by assumption)) (by assumption) (by assumption)
    | exact bound_xor4 (by assumption) (mul2_lt _) (mul3_lt (by assumption)) (by assumption)
    | exact bound_xor4 (by assumption) (by assumption) (mul2_lt _) (mul3_lt (by assumption))
    | exact bound_xor4 (mul3_lt (by assumption)) (by assumption) (by assumption) (mul2_lt _)

theorem stateOk_addRoundKey {k s : List Nat} (hk : k.length = 16 ∧ Bytes k)
    (hs : StateOk s) : StateOk (addRoundKey k s) :=
  ⟨by rw [length_addRoundKey, hs.1, hk.1]; rfl, bytes_addRoundKey hk.2 hs.2⟩

theorem invShiftRows_shiftRows {s : List Nat} (h : s.length = 16) :
    invShiftRows (shiftRows s) = s := by
  obtain ⟨a0, a1, a2, a3, a4, a5, a6, a7, a8, a9, a10, a11, a12, a13, a14, a15, rfl⟩ :=
    exists_sixteen h
  exact invShiftRows_shiftRows_explicit a0 a1 a2 a3 a4 a5 a6 a7 a8 a9 a10 a11 a12 a13 a14 a15

theorem invMixColumns_mixColumns {s : List Nat} (h : StateOk s) :
    invMixColumns (mixColumns s) = s := by
  obtain ⟨h16, hb⟩ := h
  obtain ⟨a0, a1, a2, a3, a4, a5, a6, a7, a8, a9, a10, a11, a12, a13, a14, a15, rfl⟩ :=
    exists_sixteen h16
  have hm : ∀ x ∈ [a0, a1, a2, a3, a4, a5, a6, a7, a8, a9, a10, a11, a12, a13, a14, a15],
      x < 256 := hb
  simp only [List.mem_cons, List.not_mem_nil, or_false, forall_eq_or_imp, forall_eq] at hm
  obtain ⟨h0, h1, h2, h3, h4, h5, h6, h7, h8, h9, h10, h11, h12, h13, h14, h15⟩ := hm
  have c1 := invMixCol_mixCol h0 h1 h2 h3
  have c2 := invMixCol_mixCol h4 h5 h6 h7
  have c3 := invMixCol_mixCol h8 h9 h10 h11
  have c4 := invMixCol_mixCol h12 h13 h14 h15
  show invMixCol (mixCol [a0, a1, a2, a3]) ++ invMixCol (mixCol [a4, a5, a6, a7]) ++
      invMixCol (mixCol [a8, a9, a10, a11]) ++ invMixCol (mixCol [a12, a13, a14, a15]) =
      [a0, a1, a2, a3, a4, a5, a6, a7, a8, a9, a10, a11, a12, a13, a14, a15]
  rw [c1, c2, c3, c4]
  rfl

theorem decRounds_encRounds : ∀ (rks : List (List Nat)) (s : List Nat),
    RoundKeysOk rks → StateOk s → decRounds rks (encRounds rks s) = s
  | [], s, _, _ => rfl
  | [k], s, hrk, hs => by
    have hk := hrk k (List.mem_cons_self _ _)
    have hsub := stateOk_subBytes hs
    have hshift := stateOk_shiftRows hsub
    simp only [encRounds, decRounds]
    rw [addRoundKey_addRoundKey (by rw [hk.1, hshift.1]),
      invShiftRows_shiftRows hsub.1, invSubBytes_subBytes hs.2]
  | k :: k2 :: rest, s, hrk, hs => by
    have hk := hrk k (List.mem_cons_self _ _)
    have hrest : RoundKeysOk (k2 :: rest) := fun x hx => hrk x (List.mem_cons_of_mem _ hx)
    have hsub := stateOk_subBytes hs
    have hshift := stateOk_shiftRows hsub
    have hmix := stateOk_mixColumns hshift
    have hark := stateOk_addRoundKey hk hmix
    simp only [encRounds, decRounds]
    rw [decRounds_encRounds (k2 :: rest) _ hrest hark,
      addRoundKey_addRoundKey (by rw [hk.1, hmix.1]),
      invMixColumns_mixColumns hshift,
      invShiftRows_shiftRows hsub.1, invSubBytes_subBytes hs.2]

theorem aesDecryptBlock_aesEncryptBlock {rks : List (List Nat)} {s : List Nat}
    (hrk : RoundKeysOk rks) (hs : StateOk s) :
    aesDecryptBlock rks (aesEncryptBlock rks s) = s := by
  match rks with
  | [] => rfl
  | k0 :: rest =>
    have hk0 := hrk k0 (List.mem_cons_self _ _)
    have hrest : RoundKeysOk rest := fun x hx => hrk x (List.mem_cons_of_mem _ hx)
    have hark := stateOk_addRoundKey hk0 hs
    simp only [aesEncryptBlock, aesDecryptBlock]
    rw [decRounds_encRounds rest _ hrest hark,
      addRoundKey_addRoundKey (by rw [hk0.1, hs.1])]

/-! ### AES-256 key schedule -/

theorem getD_lt_256 {l : List Nat} (hl : Bytes l) {n d : Nat} (hd : d < 256) :
    l.getD n d < 256 := by
  induction l generalizing n with
  | nil => simpa [List.getD] using hd
  | cons b bs ih =>
    obtain ⟨hb, hbs⟩ := bytes_of_cons hl
    cases n with
    | zero => simpa [List.getD] using hb
    | succ m => simpa [List.getD] using ih hbs

theorem wordOk_rconWord (i : Nat) : WordOk (rconWord i) := by
  refine ⟨rfl, ?_⟩
  intro x hx
  simp only [rconWord, List.mem_cons, List.not_mem_nil, or_false] at hx
  rcases hx with rfl | rfl | rfl | rfl
  · refine getD_lt_256 ?_ (by omega)
    intro y hy
    simp only [rconTable, List.mem_cons, List.not_mem_nil, or_false] at hy
    rcases hy with rfl | rfl | rfl | rfl | rfl | rfl | rfl | rfl | rfl | rfl | rfl <;> omega
  all_goals omega

theorem wordOk_rotWord {w : List Nat} (h : WordOk w) : WordOk (rotWord w) := by
  obtain ⟨h4, hb⟩ := h
  match w, h4 with
  | [a, b, c, d], _ =>
    refine ⟨rfl, ?_⟩
    intro x hx
    simp only [rotWord, List.mem_cons, List.not_mem_nil, or_false] at hx
    have := fun y hy => hb y hy
    rcases hx with rfl | rfl | rfl | rfl <;> exact this _ (by simp)

theorem wordOk_subWord {w : List Nat} (h : WordOk w) : WordOk (subWord w) :=
  ⟨by simp [subWord, h.1], bytes_subBytes (s := w)⟩

theorem wordOk_wordXor {a b : List Nat} (ha : WordOk a) (hb : WordOk b) :
    WordOk (wordXor a b) := by
  refine ⟨by simp [wordXor, ha.1, hb.1], ?_⟩
  have : wordXor a b = addRoundKey b a := rfl
  rw [this]
  exact bytes_addRoundKey hb.2 ha.2

theorem wordOk_of_mem_getD {ws : List (List Nat)} (h : ∀ w ∈ ws, WordOk w)
    {n : Nat} (hn : n < ws.length) : WordOk (ws.getD n []) := by
  rw [List.getD_eq_getElem ws [] hn]
  exact h _ (List.getElem_mem _)

theorem keyExpandLoop_ok : ∀ (n : Nat) (ws : List (List Nat)),
    8 ≤ ws.length → (∀ w ∈ ws, WordOk w) →
    ∀ w ∈ keyExpandLoop n ws, WordOk w
  | 0, ws, _, hws => hws
  | n + 1, ws, hlen, hws => by
    have hhead : WordOk (ws.headD []) := by
      cases ws with
      | nil => simp at hlen
      | cons w rest => exact hws w (List.mem_cons_self _ _)
    have htemp : WordOk (if ws.length % 8 = 0 then
        wordXor (subWord (rotWord (ws.headD []))) (rconWord (ws.length / 8))
      else if ws.length % 8 = 4 then subWord (ws.headD []) else ws.headD []) := by
      split
      · exact wordOk_wordXor (wordOk_subWord (wordOk_rotWord hhead)) (wordOk_rconWord _)
      · split
        · exact wordOk_subWord hhead
        · exact hhead
    have hw8 : WordOk (ws.getD 7 []) := wordOk_of_mem_getD hws (by omega)
    have hnew : WordOk (wordXor (ws.getD 7 []) _) := wordOk_wordXor hw8 htemp
    refine keyExpandLoop_ok n _ (by simp; omega) ?_
    intro w hw
    rcases List.mem_cons.mp hw with rfl | hw
    · exact hnew
    · exact hws w hw

theorem bytesToWords_ok {bs : List Nat} (h : Bytes bs) :
    ∀ w ∈ bytesToWords bs, WordOk w := by
  induction bs using bytesToWords.induct with
  | case1 a b c d rest ih =>
    intro w hw
    obtain ⟨ha, h2⟩ := bytes_of_cons h
    obtain ⟨hb, h3⟩ := bytes_of_cons h2
    obtain ⟨hc, h4⟩ := bytes_of_cons h3
    obtain ⟨hd, hrest⟩ := bytes_of_cons h4
    rw [bytesToWords] at hw
    rcases List.mem_cons.mp hw with rfl | hw
    · refine ⟨rfl, ?_⟩
      intro x hx
      simp only [List.mem_cons, List.not_mem_nil, or_false] at hx
      rcases hx with rfl | rfl | rfl | rfl <;> assumption
    · exact ih hrest w hw
  | case2 bs hne =>
    intro w hw
    rw [bytesToWords.eq_def] at hw
    match bs, hw with
    | [], hw => cases hw
    | [a], hw => cases hw
    | [a, b], hw => cases hw
    | [a, b, c], hw => cases hw
    | a :: b :: c :: d :: rest, hw => exact (hne a b c d rest rfl).elim

theorem length_bytesToWords : ∀ bs : List Nat,
    (bytesToWords bs).length = bs.length / 4
  | [] => by simp [bytesToWords]
  | [a] => by simp [bytesToWords]
  | [a, b] => by simp [bytesToWords]
  | [a, b, c] => by simp [bytesToWords]
  | a :: b :: c :: d :: rest => by
    rw [bytesToWords]
    simp only [List.length_cons, length_bytesToWords rest]
    omega

theorem wordsToRoundKeys_ok {ws : List (List Nat)} (h : ∀ w ∈ ws, WordOk w) :
    RoundKeysOk (wordsToRoundKeys ws) := by
  induction ws using wordsToRoundKeys.induct with
  | case1 w0 w1 w2 w3 rest ih =>
    intro k hk
    rw [wordsToRoundKeys] at hk
    have h0 := h w0 (by simp)
    have h1 := h w1 (by simp)
    have h2 := h w2 (by simp)
    have h3 := h w3 (by simp)
    rcases List.mem_cons.mp hk with rfl | hk
    · constructor
      · simp [h0.1, h1.1, h2.1, h3.1]
      · exact bytes_append (bytes_append (bytes_append h0.2 h1.2) h2.2) h3.2
    · exact ih (fun w hw => h w (by simp [hw])) k hk
  | case2 ws hne =>
    intro k hk
    rw [wordsToRoundKeys.eq_def] at hk
    match ws, hk with
    | [], hk => cases hk
    | [w0], hk => cases hk
    | [w0, w1], hk => cases hk
    | [w0, w1, w2], hk => cases hk
    | w0 :: w1 :: w2 :: w3 :: rest, hk => exact (hne w0 w1 w2 w3 rest rfl).elim

theorem expandKey_ok {key : List Nat} (hlen : key.length = 32) (hb : Bytes key) :
    RoundKeysOk (expandKey key) := by
  unfold expandKey
  apply wordsToRoundKeys_ok
  intro w hw
  rw [List.mem_reverse] at hw
  refine keyExpandLoop_ok 52 (bytesToWords key).reverse ?_ ?_ w hw
  · rw [List.length_reverse, length_bytesToWords, hlen]
  · intro x hx
    rw [List.mem_reverse] at hx
    exact bytesToWords_ok hb x hx

/-! ## Base64 (Node `buf.toString('base64')` / `Buffer.from(str, 'base64')`) -/

theorem b64Val_b64Char : ∀ s : Fin 64, b64Val (b64Char s.val) = some s.val := by decide

theorem b64Val_eq_char : b64Val '=' = none := by decide

theorem nodeBase64Decode_base64Encode : ∀ {bs : List Nat}, Bytes bs →
    nodeBase64Decode (base64Encode bs) = bs := by
  intro bs
  unfold nodeBase64Decode
  induction bs using base64Encode.induct with
  | case1 a b c rest ih =>
    intro h
    obtain ⟨ha, h2⟩ := bytes_of_cons h
    obtain ⟨hb, h3⟩ := bytes_of_cons h2
    obtain ⟨hc, hrest⟩ := bytes_of_cons h3
    have e0 := b64Val_b64Char ⟨a / 4, by omega⟩
    have e1 := b64Val_b64Char ⟨a % 4 * 16 + b / 16, by omega⟩
    have e2 := b64Val_b64Char ⟨b % 16 * 4 + c / 64, by omega⟩
    have e3 := b64Val_b64Char ⟨c % 64, by omega⟩
    simp only [Fin.val_mk] at e0 e1 e2 e3
    rw [base64Encode, List.filterMap_cons, e0, List.filterMap_cons, e1,
      List.filterMap_cons, e2, List.filterMap_cons, e3, sextetsToBytes, ih hrest]
    have h0 : a / 4 * 4 + (a % 4 * 16 + b / 16) / 16 = a := by omega
    have h1 : (a % 4 * 16 + b / 16) % 16 * 16 + (b % 16 * 4 + c / 64) / 4 = b := by omega
    have h2 : (b % 16 * 4 + c / 64) % 4 * 64 + c % 64 = c := by omega
    rw [h0, h1, h2]
  | case2 a b =>
    intro h
    obtain ⟨ha, h2⟩ := bytes_of_cons h
    obtain ⟨hb, _⟩ := bytes_of_cons h2
    have e0 := b64Val_b64Char ⟨a / 4, by omega⟩
    have e1 := b64Val_b64Char ⟨a % 4 * 16 + b / 16, by omega⟩
    have e2 := b64Val_b64Char ⟨b % 16 * 4, by omega⟩
    simp only [Fin.val_mk] at e0 e1 e2
    rw [base64Encode, List.filterMap_cons, e0, List.filterMap_cons, e1,
      List.filterMap_cons, e2, List.filterMap_cons, b64Val_eq_char, List.filterMap_nil,
      sextetsToBytes]
    have h0 : a / 4 * 4 + (a % 4 * 16 + b / 16) / 16 = a := by omega
    have h1 : (a % 4 * 16 + b / 16) % 16 * 16 + b % 16 * 4 / 4 = b := by omega
    rw [h0, h1]
  | case3 a =>
    intro h
    obtain ⟨ha, _⟩ := bytes_of_cons h
    have e0 := b64Val_b64Char ⟨a / 4, by omega⟩
    have e1 := b64Val_b64Char ⟨a % 4 * 16, by omega⟩
    simp only [Fin.val_mk] at e0 e1
    rw [base64Encode, List.filterMap_cons, e0, List.filterMap_cons, e1,
      List.filterMap_cons, b64Val_eq_char, List.filterMap_cons, b64Val_eq_char,
      List.filterMap_nil, sextetsToBytes]
    have h0 : a / 4 * 4 + a % 4 * 16 / 16 = a := by omega
    rw [h0]
  | case4 => intro h; rfl

theorem length_base64Encode : ∀ bs : List Nat,
    (base64Encode bs).length = (bs.length + 2) / 3 * 4
  | a :: b :: c :: rest => by
    rw [base64Encode]
    simp only [List.length_cons, length_base64Encode rest]
    omega
  | [a, b] => by rw [base64Encode]; simp
  | [a] => by rw [base64Encode]; simp
  | [] => rfl

/-! ## PKCS#7 padding and CBC mode -/

theorem getLast?_replicate {n : Nat} {x : Nat} (h : 0 < n) :
    (List.replicate n x).getLast? = some x := by
  induction n with
  | zero => omega
  | succ m ih =>
    cases m with
    | zero => rfl
    | succ k =>
      rw [List.replicate_succ, List.getLast?_cons]
      rw [List.replicate_succ] at ih ⊢
      simp only [List.getLast?_cons] at ih ⊢
      simpa using ih (by omega)

theorem pkcs7Unpad_pkcs7Pad (bs : List Nat) : pkcs7Unpad (pkcs7Pad bs) = some bs := by
  have hr1 : 1 ≤ 16 - bs.length % 16 := by omega
  have hr16 : 16 - bs.length % 16 ≤ 16 := by omega
  unfold pkcs7Pad pkcs7Unpad
  rw [List.getLast?_append, getLast?_replicate hr1]
  simp only [Option.or_some]
  have hlen : (bs ++ List.replicate (16 - bs.length % 16) (16 - bs.length % 16)).length =
      bs.length + (16 - bs.length % 16) := by
    simp
  rw [hlen]
  have hsub : bs.length + (16 - bs.length % 16) - (16 - bs.length % 16) = bs.length := by
    omega
  rw [hsub]
  have hdrop : (bs ++ List.replicate (16 - bs.length % 16) (16 - bs.length % 16)).drop
      bs.length = List.replicate (16 - bs.length % 16) (16 - bs.length % 16) :=
    List.drop_left bs _
  have htake : (bs ++ List.replicate (16 - bs.length % 16) (16 - bs.length % 16)).take
      bs.length = bs := List.take_left bs _
  rw [hdrop, htake]
  have hall : (List.replicate (16 - bs.length % 16) (16 - bs.length % 16)).all
      (fun x => x == 16 - bs.length % 16) = true := by
    rw [List.all_eq_true]
    intro x hx
    rw [List.eq_of_mem_replicate hx]
    exact beq_self_eq_true _
  simp [hr1, hr16, hall]

theorem length_pkcs7Pad_mod (bs : List Nat) : (pkcs7Pad bs).length % 16 = 0 := by
  have := Nat.mod_lt bs.length (show 0 < 16 by omega)
  simp only [pkcs7Pad, List.length_append, List.length_replicate]
  omega

theorem bytes_pkcs7Pad {bs : List Nat} (h : Bytes bs) : Bytes (pkcs7Pad bs) := by
  apply bytes_append h
  intro x hx
  rw [List.eq_of_mem_replicate hx]
  omega

theorem chunk16_ok : ∀ bs : List Nat, bs.length % 16 = 0 → Bytes bs →
    ∀ c ∈ chunk16 bs, StateOk c
  | [], _, _ => by intro c hc; simp [chunk16] at hc
  | b :: rest, hmod, hb => by
    intro c hc
    obtain ⟨hbb, hbrest⟩ := bytes_of_cons hb
    have hlen : 15 ≤ rest.length := by
      simp only [List.length_cons] at hmod
      omega
    rw [chunk16] at hc
    rcases List.mem_cons.mp hc with rfl | hc
    · constructor
      · simp only [List.length_cons, List.length_take]
        omega
      · exact bytes_cons hbb (fun x hx => hbrest x (List.mem_of_mem_take hx))
    · have hdm : (rest.drop 15).length % 16 = 0 := by
        simp only [List.length_drop]
        simp only [List.length_cons] at hmod
        omega
      have hdb : Bytes (rest.drop 15) := fun x hx => hbrest x (List.mem_of_mem_drop hx)
      exact chunk16_ok (rest.drop 15) hdm hdb c hc
termination_by bs => bs.length
decreasing_by simp; omega

theorem flatten_chunk16 : ∀ bs : List Nat, (chunk16 bs).flatten = bs
  | [] => by rw [chunk16]; rfl
  | b :: rest => by
    rw [chunk16, List.flatten_cons, flatten_chunk16 (rest.drop 15)]
    simp [List.take_append_drop]
termination_by bs => bs.length
decreasing_by simp; omega

theorem chunk16_flatten : ∀ blocks : List (List Nat),
    (∀ c ∈ blocks, c.length = 16) → chunk16 blocks.flatten = blocks := by
  intro blocks
  induction blocks with
  | nil => intro _; rw [List.flatten_nil, chunk16]
  | cons c rest ih =>
    intro h
    have hc : c.length = 16 := h c (List.mem_cons_self _ _)
    match c, hc with
    | x :: xs, hc =>
      have hxs : xs.length = 15 := by simpa using hc
      rw [List.flatten_cons, List.cons_append, chunk16]
      have ht : (xs ++ rest.flatten).take 15 = xs := by
        rw [← hxs]; exact List.take_left xs _
      have hd : (xs ++ rest.flatten).drop 15 = rest.flatten := by
        rw [← hxs]; exact List.drop_left xs _
      rw [ht, hd, ih (fun b hb => h b (List.mem_cons_of_mem _ hb))]

theorem length_flatten_16 : ∀ blocks : List (List Nat),
    (∀ c ∈ blocks, c.length = 16) → blocks.flatten.length = 16 * blocks.length := by
  intro blocks
  induction blocks with
  | nil => intro _; rfl
  | cons c rest ih =>
    intro h
    rw [List.flatten_cons, List.length_append, h c (List.mem_cons_self _ _),
      ih (fun b hb => h b (List.mem_cons_of_mem _ hb)), List.length_cons]
    ring

theorem bytes_flatten {blocks : List (List Nat)} (h : ∀ c ∈ blocks, Bytes c) :
    Bytes blocks.flatten := by
  intro x hx
  rw [List.mem_flatten] at hx
  obtain ⟨c, hc, hxc⟩ := hx
  exact h c hc x hxc

theorem stateOk_encRounds : ∀ (rks : List (List Nat)) (s : List Nat),
    RoundKeysOk rks → StateOk s → StateOk (encRounds rks s)
  | [], s, _, hs => hs
  | [k], s, hrk, hs => by
    have hk := hrk k (List.mem_cons_self _ _)
    exact stateOk_addRoundKey hk (stateOk_shiftRows (stateOk_subBytes hs))
  | k :: k2 :: rest, s, hrk, hs => by
    have hk := hrk k (List.mem_cons_self _ _)
    have hrest : RoundKeysOk (k2 :: rest) := fun x hx => hrk x (List.mem_cons_of_mem _ hx)
    exact stateOk_encRounds (k2 :: rest) _ hrest
      (stateOk_addRoundKey hk (stateOk_mixColumns (stateOk_shiftRows (stateOk_subBytes hs))))

theorem stateOk_aesEncryptBlock {rks : List (List Nat)} {s : List Nat}
    (hrk : RoundKeysOk rks) (hs : StateOk s) : StateOk (aesEncryptBlock rks s) := by
  match rks with
  | [] => exact hs
  | k0 :: rest =>
    have hk0 := hrk k0 (List.mem_cons_self _ _)
    have hrest : RoundKeysOk rest := fun x hx => hrk x (List.mem_cons_of_mem _ hx)
    exact stateOk_encRounds rest _ hrest (stateOk_addRoundKey hk0 hs)

theorem cbcEncBlocks_ok {rks : List (List Nat)} (hrk : RoundKeysOk rks) :
    ∀ (blocks : List (List Nat)) (prev : List Nat), StateOk prev →
    (∀ b ∈ blocks, StateOk b) → ∀ c ∈ cbcEncBlocks rks prev blocks, StateOk c := by
  intro blocks
  induction blocks with
  | nil => intro prev _ _ c hc; simp [cbcEncBlocks] at hc
  | cons b bs ih =>
    intro prev hprev hblocks c hc
    have hb := hblocks b (List.mem_cons_self _ _)
    have hc1 : StateOk (aesEncryptBlock rks (addRoundKey prev b)) :=
      stateOk_aesEncryptBlock hrk (stateOk_addRoundKey ⟨hprev.1, hprev.2⟩ hb)
    rw [cbcEncBlocks] at hc
    rcases List.mem_cons.mp hc with rfl | hc
    · exact hc1
    · exact ih _ hc1 (fun x hx => hblocks x (List.mem_cons_of_mem _ hx)) c hc

theorem cbcDecBlocks_cbcEncBlocks {rks : List (List Nat)} (hrk : RoundKeysOk rks) :
    ∀ (blocks : List (List Nat)) (prev : List Nat), StateOk prev →
    (∀ b ∈ blocks, StateOk b) →
    cbcDecBlocks rks prev (cbcEncBlocks rks prev blocks) = blocks := by
  intro blocks
  induction blocks with
  | nil => intro prev _ _; rfl
  | cons b bs ih =>
    intro prev hprev hblocks
    have hb := hblocks b (List.mem_cons_self _ _)
    have hark : StateOk (addRoundKey prev b) := stateOk_addRoundKey ⟨hprev.1, hprev.2⟩ hb
    have hc : StateOk (aesEncryptBlock rks (addRoundKey prev b)) :=
      stateOk_aesEncryptBlock hrk hark
    rw [cbcEncBlocks, cbcDecBlocks,
      aesDecryptBlock_aesEncryptBlock hrk hark,
      addRoundKey_addRoundKey (by rw [hprev.1, hb.1]),
      ih _ hc (fun x hx => hblocks x (List.mem_cons_of_mem _ hx))]

/-! ## `encryptMessage` / `decryptMessage` (`services/encryption.ts`)

The source file holds two variants of the module: a base64-key variant
(the one the backend's own test suite exercises: `generateCipherKey`
returns 44-char base64) and a hex-key variant (key rendered and decoded as
hex).  Both produce `<iv-hex>:<ct-hex>`; they differ only in how the key
string is decoded into the 32 key bytes, so the cipher pipeline is
parametric in the key decoder.  `crypto.randomBytes` is modelled by
passing the random bytes (`entropy`, `iv`) explicitly; `createCipheriv`
throws when the decoded key is not 32 bytes or the IV is not 16 bytes, and
`decipher.final` throws on ragged or unpaddable ciphertext. -/

theorem intercalate_pair (A B : List Char) : [':'].intercalate [A, B] = A ++ ':' :: B := by
  simp [List.intercalate, List.intersperse]

theorem splitOn_hex_pair {iv ct : List Nat} (hiv : Bytes iv) (hct : Bytes ct) :
    (bytesToHexChars iv ++ ':' :: bytesToHexChars ct).splitOn ':' =
      [bytesToHexChars iv, bytesToHexChars ct] := by
  rw [← intercalate_pair]
  apply List.splitOn_intercalate
  · intro l hl
    simp only [List.mem_cons, List.not_mem_nil, or_false] at hl
    rcases hl with rfl | rfl
    · intro hc
      exact mem_bytesToHexChars_ne_colon hiv ':' hc rfl
    · intro hc
      exact mem_bytesToHexChars_ne_colon hct ':' hc rfl
  · simp

/-- The cipher round trip for any key decoder, given that the key string
decodes to 32 bytes. -/
theorem decryptMessageWith_encryptMessageWith (decodeKey : List Char → List Nat)
    {message keyBytes iv : List Nat} {keyStr : List Char}
    (hdec : decodeKey keyStr = keyBytes)
    (hkey : keyBytes.length = 32) (hkeyB : Bytes keyBytes)
    (hiv : iv.length = 16) (hivB : Bytes iv) (hmsg : Bytes message) :
    ∃ enc, encryptMessageWith decodeKey message keyStr iv = .ok enc ∧
      decryptMessageWith decodeKey enc keyStr = .ok message := by
  have hrk : RoundKeysOk (expandKey keyBytes) := expandKey_ok hkey hkeyB
  have hpadmod := length_pkcs7Pad_mod message
  have hpadB := bytes_pkcs7Pad hmsg
  have hplainOk : ∀ c ∈ chunk16 (pkcs7Pad message), StateOk c :=
    chunk16_ok _ hpadmod hpadB
  have hctOk : ∀ c ∈ cbcEncBlocks (expandKey keyBytes) iv (chunk16 (pkcs7Pad message)),
      StateOk c :=
    cbcEncBlocks_ok hrk _ iv ⟨hiv, hivB⟩ hplainOk
  have hctB : Bytes (cbcEncBlocks (expandKey keyBytes) iv
      (chunk16 (pkcs7Pad message))).flatten :=
    bytes_flatten (fun c hc => (hctOk c hc).2)
  have hctLen : (cbcEncBlocks (expandKey keyBytes) iv
      (chunk16 (pkcs7Pad message))).flatten.length % 16 = 0 := by
    rw [length_flatten_16 _ (fun c hc => (hctOk c hc).1)]
    omega
  refine ⟨bytesToHexChars iv ++ ':' :: bytesToHexChars (cbcEncBlocks (expandKey keyBytes)
    iv (chunk16 (pkcs7Pad message))).flatten, ?_, ?_⟩
  · unfold encryptMessageWith
    rw [hdec]
    simp [hkey, hiv]
  · unfold decryptMessageWith
    rw [hdec]
    rw [splitOn_hex_pair hivB hctB]
    have hg0 : ([bytesToHexChars iv, bytesToHexChars (cbcEncBlocks (expandKey keyBytes) iv
        (chunk16 (pkcs7Pad message))).flatten].getD 0 []) = bytesToHexChars iv := rfl
    have hg1 : ([bytesToHexChars iv, bytesToHexChars (cbcEncBlocks (expandKey keyBytes) iv
        (chunk16 (pkcs7Pad message))).flatten].getD 1 []) =
        bytesToHexChars (cbcEncBlocks (expandKey keyBytes) iv
          (chunk16 (pkcs7Pad message))).flatten := rfl
    show (if _ ≠ 2 then _ else _) = _
    rw [hg0, hg1, nodeHexDecode_bytesToHexChars hivB, nodeHexDecode_bytesToHexChars hctB]
    rw [chunk16_flatten _ (fun c hc => (hctOk c hc).1)]
    rw [cbcDecBlocks_cbcEncBlocks hrk _ iv ⟨hiv, hivB⟩ hplainOk]
    rw [flatten_chunk16, pkcs7Unpad_pkcs7Pad]
    have hctLen' := hctLen
    simp only [List.length_flatten] at hctLen'
    simp [hkey, hiv, hctLen, hctLen']

/-- Round trip of the base64-key variant under any key the room store's
`generateCipherKey` can produce. -/
theorem roundTrip64 {message entropy iv : List Nat}
    (hmsg : Bytes message) (he : entropy.length = 32) (heB : Bytes entropy)
    (hiv : iv.length = 16) (hivB : Bytes iv) :
    ∃ enc, encryptMessage64 message (generateCipherKey entropy) iv = .ok enc ∧
      decryptMessage64 enc (generateCipherKey entropy) = .ok message := by
  have hdec : nodeBase64Decode (generateCipherKey entropy) = entropy :=
    nodeBase64Decode_base64Encode heB
  exact decryptMessageWith_encryptMessageWith nodeBase64Decode hdec he heB hiv hivB hmsg

/-- Round trip of the hex-key variant under hex-rendered 32-byte keys. -/
theorem roundTripHex {message entropy iv : List Nat}
    (hmsg : Bytes message) (he : entropy.length = 32) (heB : Bytes entropy)
    (hiv : iv.length = 16) (hivB : Bytes iv) :
    ∃ enc, encryptMessageHex message (generateCipherKeyHex entropy) iv = .ok enc ∧
      decryptMessageHex enc (generateCipherKeyHex entropy) = .ok message := by
  have hdec : nodeHexDecode (generateCipherKeyHex entropy) = entropy :=
    nodeHexDecode_bytesToHexChars heB
  exact decryptMessageWith_encryptMessageWith nodeHexDecode hdec he heB hiv hivB hmsg

/-- The hex-key variant rejects every key the room store generates: a
44-char base64 string can hex-decode to at most 22 bytes, so
`createCipheriv` raises an invalid-key-length error. -/
theorem encryptMessageHex_base64Key_error (message iv : List Nat) {entropy : List Nat}
    (he : entropy.length = 32) :
    encryptMessageHex message (generateCipherKey entropy) iv =
      .error "Invalid key length" := by
  have hlen44 : (generateCipherKey entropy).length = 44 := by
    unfold generateCipherKey
    rw [length_base64Encode, he]
  have hd := length_nodeHexDecode (generateCipherKey entropy)
  rw [hlen44] at hd
  unfold encryptMessageHex encryptMessageWith
  have : (nodeHexDecode (generateCipherKey entropy)).length ≠ 32 := by omega
  simp [this]

/-! ## Data model of the stores

Message contents and ids are opaque `String`s here.  A persisted row's
`content`/`translatedContent` field holds the plaintext whose encryption
(`encryptMessage(_, cipherKey)`) is stored in the database column; the
store encrypts on write and decrypts on read, returning plaintext to every
caller, and the encrypt/decrypt round trip is proven in the cipher section
above, so a column is SQL `NULL` exactly when the field is `none`. -/

theorem beq_false_of_ne_str {a b : String} (h : ¬ a = b) : (a == b) = false := by
  cases hx : a == b with
  | false => rfl
  | true => exact absurd (eq_of_beq hx) h

theorem alistGet_cons {α : Type} (e : String × α) (es : List (String × α)) (k : String) :
    alistGet (e :: es) k = if e.1 == k then some e.2 else alistGet es k := by
  cases hx : e.1 == k with
  | true => simp [alistGet, List.find?, hx]
  | false => simp [alistGet, List.find?, hx]

theorem alistSet_cons_pos {α : Type} {e : String × α} {es : List (String × α)}
    {k : String} (v : α) (h : (e.1 == k) = true) :
    alistSet (e :: es) k v = (k, v) :: es := by
  rw [alistSet, if_pos h]

theorem alistSet_cons_neg {α : Type} {e : String × α} {es : List (String × α)}
    {k : String} (v : α) (h : (e.1 == k) = false) :
    alistSet (e :: es) k v = e :: alistSet es k v := by
  rw [alistSet, if_neg (by rw [h]; exact Bool.false_ne_true)]

theorem alistDelete_cons {α : Type} (e : String × α) (es : List (String × α))
    (k : String) :
    alistDelete (e :: es) k =
      if e.1 == k then alistDelete es k else e :: alistDelete es k := by
  cases hx : e.1 == k with
  | true =>
    unfold alistDelete
    rw [List.filter_cons, if_neg (by simp [bne, hx]), if_pos rfl]
  | false =>
    unfold alistDelete
    rw [List.filter_cons, if_pos (by simp [bne, hx]), if_neg (by simp)]

theorem alistGet_alistSet_self {α : Type} (m : List (String × α)) (k : String) (v : α) :
    alistGet (alistSet m k v) k = some v := by
  induction m with
  | nil => simp [alistGet, alistSet, List.find?]
  | cons e es ih =>
    cases hx : e.1 == k with
    | true => rw [alistSet_cons_pos v hx, alistGet_cons]; simp
    | false => rw [alistSet_cons_neg v hx, alistGet_cons, hx]; simpa using ih

theorem alistGet_alistSet_ne {α : Type} (m : List (String × α)) (k k' : String) (v : α)
    (h : k' ≠ k) : alistGet (alistSet m k v) k' = alistGet m k' := by
  have hkk : (k == k') = false := beq_false_of_ne_str (fun e => h e.symm)
  induction m with
  | nil => simp [alistGet, alistSet, List.find?, hkk]
  | cons e es ih =>
    cases hx : e.1 == k with
    | true =>
      have he3 : (e.1 == k') = false := by
        rw [eq_of_beq hx]; exact hkk
      rw [alistSet_cons_pos v hx, alistGet_cons, alistGet_cons, hkk, he3]
      simp
    | false =>
      rw [alistSet_cons_neg v hx, alistGet_cons, alistGet_cons]
      cases hy : e.1 == k' with
      | true => simp
      | false => simpa using ih

theorem alistGet_alistDelete_self {α : Type} (m : List (String × α)) (k : String) :
    alistGet (alistDelete m k) k = none := by
  induction m with
  | nil => rfl
  | cons e es ih =>
    rw [alistDelete_cons]
    cases hx : e.1 == k with
    | true => simpa using ih
    | false => rw [if_neg (by simp [hx]), alistGet_cons, hx]; simpa using ih

theorem alistGet_alistDelete_ne {α : Type} (m : List (String × α)) (k k' : String)
    (h : k' ≠ k) : alistGet (alistDelete m k) k' = alistGet m k' := by
  induction m with
  | nil => rfl
  | cons e es ih =>
    rw [alistDelete_cons, alistGet_cons]
    cases hx : e.1 == k with
    | true =>
      have he3 : (e.1 == k') = false := by
        rw [eq_of_beq hx]; exact beq_false_of_ne_str (fun e => h e.symm)
      rw [if_pos rfl, he3]
      simpa using ih
    | false =>
      rw [if_neg (by simp), alistGet_cons]
      cases hy : e.1 == k' with
      | true => simp
      | false => simpa using ih

theorem mem_addToSet_iff {l : List String} {x y : String} :
    y ∈ addToSet l x ↔ y ∈ l ∨ y = x := by
  unfold addToSet
  by_cases hc : l.contains x
  · simp only [hc, if_true]
    constructor
    · exact Or.inl
    · intro h
      rcases h with h | rfl
      · exact h
      · simpa using hc
  · simp only [hc]
    simp

theorem mem_removeFromSet_iff {l : List String} {x y : String} :
    y ∈ removeFromSet l x ↔ y ∈ l ∧ y ≠ x := by
  unfold removeFromSet
  simp [List.mem_filter]

/-! ## Room-store lemmas -/

theorem getRoom_cons (r : Room) (rs : List Room) (roomId : String) :
    getRoom (r :: rs) roomId = if r.id == roomId then some r else getRoom rs roomId := by
  cases hx : r.id == roomId with
  | true => simp [getRoom, List.find?, hx]
  | false => simp [getRoom, List.find?, hx]

theorem getRoom_updateRoomDoctor (db : List Room) (roomId q : String) (d : Option String) :
    getRoom (updateRoomDoctor db roomId d) q =
      (getRoom db q).map (fun room => if room.id == roomId then
        { room with doctorId := d } else room) := by
  induction db with
  | nil => rfl
  | cons r rs ih =>
    by_cases hx : r.id = roomId
    · by_cases hq : r.id = q
      · simp [updateRoomDoctor, getRoom_cons, hx, hq, ih] at ih ⊢
        simp [← hq, hx]
      · simp only [updateRoomDoctor, List.map_cons] at ih ⊢
        rw [getRoom_cons, getRoom_cons]
        have h1 : (if r.id == roomId then ({ r with doctorId := d } : Room) else r) =
            { r with doctorId := d } := by simp [hx]
        rw [h1]
        have h2 : (({ r with doctorId := d } : Room).id == q) = false :=
          beq_false_of_ne_str hq
        rw [h2]
        simpa using ih
    · simp only [updateRoomDoctor, List.map_cons] at ih ⊢
      rw [getRoom_cons, getRoom_cons]
      have h1 : (if r.id == roomId then ({ r with doctorId := d } : Room) else r) = r := by
        simp [beq_false_of_ne_str hx]
      rw [h1]
      by_cases hq : r.id = q
      · have h2 : (r.id == q) = true := by simp [hq]
        rw [h2]
        simp [hx]
      · have h2 : (r.id == q) = false := beq_false_of_ne_str hq
        rw [h2]
        simpa using ih

/-- C8 core: `leaveRoom` sets `doctor_id` to null iff the stored value
equals the releasing doctor's id, and a second release by the same doctor
finds `null` and fails without changing the room. -/
theorem leaveRoom_release_spec (db : List Room) (roomId D : String) (room : Room)
    (hget : getRoom db roomId = some room) (hD : D ≠ "") :
    (room.doctorId = some D →
      leaveRoom db roomId .doctor (some D) = .ok (updateRoomDoctor db roomId none)) ∧
    (room.doctorId ≠ some D →
      leaveRoom db roomId .doctor (some D) = .error "Doctor not in this room") := by
  have htruthy : jsTruthy (some D) = true := by simp [jsTruthy, hD]
  constructor
  · intro heq
    simp [leaveRoom, hget, htruthy, heq]
  · intro hne
    simp [leaveRoom, hget, htruthy, hne]

/-! ## C9 support -/

theorem step_leave_noSession (tr : TrOracle) (S : WsState) (sid : String)
    (h : getSession S sid = none) :
    step tr S (.leaveRoomEv sid) = (S, [(sid, .errorMsg "No active session found")]) := by
  show handleLeaveRoom S sid = _
  unfold handleLeaveRoom
  rw [h]

theorem step_disconnect_noSession (tr : TrOracle) (S : WsState) (sid : String)
    (h : getSession S sid = none) :
    step tr S (.disconnect sid) = (S, []) := by
  show handleDisconnect S sid = _
  unfold handleDisconnect
  rw [h]

/-! ## Message-store invariants -/

theorem jsTruthy_ne_none {x : Option String} (h : jsTruthy x = true) : x ≠ none := by
  cases x with
  | none => simp [jsTruthy] at h
  | some s => exact Option.some_ne_none s

theorem sendMessage_patient_reject (db : MessagesDB) (p : SendMessageParams)
    (h1 : p.role = .patient) (h2 : p.senderId ≠ none) :
    sendMessage db p = .error "Patient messages must have null senderId for anonymity" := by
  unfold sendMessage
  rw [if_pos ⟨h1, h2⟩]

theorem sendMessage_ok_spec {db : MessagesDB} {p : SendMessageParams}
    {db' : MessagesDB} {m : Message} (h : sendMessage db p = .ok (db', m)) :
    m = { id := db.nextSeq, roomId := p.roomId, senderRole := p.role,
          senderId := p.senderId, content := p.content,
          translatedContent := p.translatedContent, language := p.language,
          targetLanguage := p.targetLanguage, timestamp := db.nextSeq,
          isAudio := p.isAudio } ∧
    db'.rows = db.rows ++ [m] ∧ db'.nextSeq = db.nextSeq + 1 ∧
    (m.senderRole = .patient → m.senderId = none) ∧
    (m.senderRole = .doctor → m.senderId ≠ none) := by
  unfold sendMessage at h
  by_cases hc1 : p.role = .patient ∧ p.senderId ≠ none
  · rw [if_pos hc1] at h; cases h
  · rw [if_neg hc1] at h
    by_cases hc2 : p.role = .doctor ∧ ¬ jsTruthy p.senderId
    · rw [if_pos hc2] at h; cases h
    · rw [if_neg hc2] at h
      injection h with h1
      injection h1 with hdb hm
      subst hdb
      subst hm
      refine ⟨rfl, rfl, rfl, ?_, ?_⟩
      · intro hp
        by_contra hne
        exact hc1 ⟨hp, hne⟩
      · intro hd
        have ht : jsTruthy p.senderId = true := by
          by_contra hnt
          exact hc2 ⟨hd, hnt⟩
        exact jsTruthy_ne_none ht

theorem dbInv_sendMessage {db : MessagesDB} {p : SendMessageParams} {db' : MessagesDB}
    {m : Message} (h : sendMessage db p = .ok (db', m)) (hI : DbInv db) : DbInv db' := by
  obtain ⟨hm, hrows, hnext, hpat, hdoc⟩ := sendMessage_ok_spec h
  obtain ⟨hanon, hpw, hbound⟩ := hI
  have hts : m.timestamp = db.nextSeq := by rw [hm]
  refine ⟨?_, ?_, ?_⟩
  · intro x hx
    rw [hrows] at hx
    rcases List.mem_append.mp hx with hx | hx
    · exact hanon x hx
    · rw [List.mem_singleton.mp hx]
      exact ⟨hpat, hdoc⟩
  · rw [hrows, List.pairwise_append]
    refine ⟨hpw, List.pairwise_singleton _ _, ?_⟩
    intro a ha b hb
    rw [List.mem_singleton.mp hb, hts]
    exact hbound a ha
  · intro x hx
    rw [hrows] at hx
    rw [hnext]
    rcases List.mem_append.mp hx with hx | hx
    · exact Nat.lt_succ_of_lt (hbound x hx)
    · rw [List.mem_singleton.mp hx, hts]
      omega

theorem messagesDB_deleteSession (S : WsState) (sid : String) :
    (deleteSession S sid).messagesDB = S.messagesDB := by
  unfold deleteSession
  dsimp only
  split <;> try rfl
  split <;> try rfl
  split <;> rfl

theorem messagesDB_joinRoomAdmit (S : WsState) (sid roomId : String) (roleV : Role)
    (lang : String) (doctorId : Option String) :
    (joinRoomAdmit S sid roomId roleV lang doctorId).1.messagesDB = S.messagesDB := by
  unfold joinRoomAdmit
  dsimp only
  split <;> rfl

theorem messagesDB_handleJoinRoom (S : WsState) (sid roomId role : String)
    (lang : Option String) (auth : Option JWTPayload) :
    (handleJoinRoom S sid roomId role lang auth).1.messagesDB = S.messagesDB := by
  unfold handleJoinRoom
  split
  · rfl
  split
  · rfl
  split
  · split
    · split
      · apply messagesDB_joinRoomAdmit
      · rfl
    · rfl
  · apply messagesDB_joinRoomAdmit

theorem messagesDB_handleUpdateLanguage (S : WsState) (sid language : String) :
    (handleUpdateLanguage S sid language).1.messagesDB = S.messagesDB := by
  unfold handleUpdateLanguage
  split
  · rfl
  · split <;> rfl

theorem messagesDB_handleLeaveRoom (S : WsState) (sid : String) :
    (handleLeaveRoom S sid).1.messagesDB = S.messagesDB := by
  unfold handleLeaveRoom
  split
  · rfl
  · dsimp only
    split
    · split
      · simp only [messagesDB_deleteSession, transportLeave]
      · rfl
    · simp only [messagesDB_deleteSession, transportLeave]

theorem messagesDB_handleDisconnect (S : WsState) (sid : String) :
    (handleDisconnect S sid).1.messagesDB = S.messagesDB := by
  unfold handleDisconnect
  split
  · rfl
  · dsimp only
    simp only [transportLeaveAll, messagesDB_deleteSession]
    split
    · split <;> rfl
    · rfl

theorem dbInv_handleSendMessage (tr : TrOracle) (S : WsState) (sid content : String)
    (language : Option String) (tc tl : Option String) (ia : Option Bool)
    (hI : DbInv S.messagesDB) :
    DbInv (handleSendMessage tr S sid content language tc tl ia).1.messagesDB := by
  unfold handleSendMessage
  split
  · exact hI
  split
  · exact hI
  split
  · exact hI
  dsimp only
  split
  · exact hI
  rename_i heq
  split
  · exact dbInv_sendMessage heq hI
  · exact dbInv_sendMessage heq hI

theorem dbInv_step (tr : TrOracle) (S : WsState) (e : InEvent)
    (hI : DbInv S.messagesDB) : DbInv (step tr S e).1.messagesDB := by
  cases e with
  | joinRoom sid roomId role lang auth =>
    show DbInv (handleJoinRoom S sid roomId role lang auth).1.messagesDB
    rw [messagesDB_handleJoinRoom]
    exact hI
  | sendMsg sid content language tc tl ia =>
    exact dbInv_handleSendMessage tr S sid content language tc tl ia hI
  | updateLanguage sid language =>
    show DbInv (handleUpdateLanguage S sid language).1.messagesDB
    rw [messagesDB_handleUpdateLanguage]
    exact hI
  | leaveRoomEv sid =>
    show DbInv (handleLeaveRoom S sid).1.messagesDB
    rw [messagesDB_handleLeaveRoom]
    exact hI
  | disconnect sid =>
    show DbInv (handleDisconnect S sid).1.messagesDB
    rw [messagesDB_handleDisconnect]
    exact hI

theorem dbInv_run (tr : TrOracle) : ∀ (evs : List InEvent) (S : WsState),
    DbInv S.messagesDB → DbInv (run tr S evs).1.messagesDB
  | [], _, hI => hI
  | e :: es, S, hI => dbInv_run tr es (step tr S e).1 (dbInv_step tr S e hI)

theorem dbInv_initState (rooms : List Room) : DbInv (initState rooms).messagesDB := by
  refine ⟨?_, ?_, ?_⟩ <;> simp [initState]

/-! ## Event discriminators (for concrete-trace statements) -/

theorem handleJoinRoom_patient_admits (S : WsState) (sid roomId : String)
    (lang : Option String) (h : roomId ≠ "") :
    getSession (handleJoinRoom S sid roomId "patient" lang none).1 sid =
      some ⟨sid, roomId, .patient, none, lang.getD "en"⟩ := by
  unfold handleJoinRoom
  have h1 : (roomId == "") = false := beq_false_of_ne_str h
  rw [h1]
  show getSession (joinRoomAdmit S sid roomId .patient (lang.getD "en") none).1 sid = _
  unfold joinRoomAdmit
  dsimp only
  split <;>
    (show alistGet (alistSet S.sessions sid _) sid = _
     exact alistGet_alistSet_self _ _ _)

/-- C1: corrected.  The socket `join_room` handler performs no room-store
lookup at all: a patient join into any room id (existing or not) is
admitted and creates a session.  The room-existence check and the
distinct-doctor rejection exist, but in the HTTP join path
(`joinRoomAsDoctor`): a missing room yields `Room not found`, and a stored
doctor id that is truthy and different from the verified id yields
`Room already has a doctor assigned`. -/
theorem C1_join_checks :
    (∀ (S : WsState) (sid roomId : String) (lang : Option String),
      roomId ≠ "" →
        getSession (handleJoinRoom S sid roomId "patient" lang none).1 sid =
          some ⟨sid, roomId, .patient, none, lang.getD "en"⟩) ∧
    (∀ (db : List Room) (roomId doctorId : String),
      getRoom db roomId = none →
        joinRoomAsDoctor db roomId doctorId = .error "Room not found") ∧
    (∀ (db : List Room) (roomId doctorId : String) (room : Room),
      getRoom db roomId = some room →
      jsTruthy room.doctorId = true → room.doctorId ≠ some doctorId →
        joinRoomAsDoctor db roomId doctorId =
          .error "Room already has a doctor assigned") := by
  refine ⟨handleJoinRoom_patient_admits, ?_, ?_⟩
  · intro db roomId doctorId hget
    unfold joinRoomAsDoctor
    rw [hget]
  · intro db roomId doctorId room hget ht hne
    unfold joinRoomAsDoctor
    rw [hget]
    dsimp only
    rw [if_pos ⟨ht, hne⟩]

/-- C1 witness: the amended checks at concrete inputs: a second doctor is
rejected by the HTTP join, and the missing-room case errors. -/
theorem C1_join_checks_witness :
    joinRoomAsDoctor [⟨"room-a", some "D1", "KEY"⟩] "room-a" "D2" =
      .error "Room already has a doctor assigned" ∧
    joinRoomAsDoctor [⟨"room-a", some "D1", "KEY"⟩] "room-b" "D2" =
      .error "Room not found" ∧
    getSession (handleJoinRoom (initState []) "s1" "room-x" "patient" none none).1 "s1" =
      some ⟨"s1", "room-x", .patient, none, "en"⟩ :=
  ⟨C1_join_checks.2.2 _ "room-a" "D2" ⟨"room-a", some "D1", "KEY"⟩ rfl rfl (by decide),
   C1_join_checks.2.1 _ "room-b" "D2" rfl,
   C1_join_checks.1 (initState []) "s1" "room-x" none (by decide)⟩

/-- C1 counterexample: the original claim fails: a `join_room` into a room
id that does not exist in the room store is not rejected: it creates a
session and emits no error event at all. -/
theorem C1_counterexample :
    getRoom (initState []).roomsDB "room-x" = none ∧
    getSession (step (fun _ _ _ => none) (initState [])
        (.joinRoom "s1" "room-x" "patient" none none)).1 "s1" =
      some ⟨"s1", "room-x", .patient, none, "en"⟩ ∧
    ((step (fun _ _ _ => none) (initState [])
        (.joinRoom "s1" "room-x" "patient" none none)).2.all
      (fun d => !(isErrorMsg d.2))) = true := by
  refine ⟨rfl, ?_, ?_⟩ <;> decide

/-! ## C2 -/

/-- C2: corrected.  The spec's round-trip law holds for the base64-key
variant of `encryption.ts` under every key `generateCipherKey` produces
(and for the hex-key variant under hex-rendered keys), but the hex-key
variant rejects every key the room store generates: a 44-character base64
key string hex-decodes to at most 22 bytes, so encryption fails with
`Invalid key length` before any round trip can happen. -/
theorem C2_round_trip :
    (∀ message entropy iv : List Nat,
      Bytes message → entropy.length = 32 → Bytes entropy →
      iv.length = 16 → Bytes iv →
        ∃ enc, encryptMessage64 message (generateCipherKey entropy) iv = .ok enc ∧
          decryptMessage64 enc (generateCipherKey entropy) = .ok message) ∧
    (∀ message entropy iv : List Nat,
      Bytes message → entropy.length = 32 → Bytes entropy →
      iv.length = 16 → Bytes iv →
        ∃ enc, encryptMessageHex message (generateCipherKeyHex entropy) iv = .ok enc ∧
          decryptMessageHex enc (generateCipherKeyHex entropy) = .ok message) ∧
    (∀ (message iv entropy : List Nat), entropy.length = 32 →
      encryptMessageHex message (generateCipherKey entropy) iv =
        .error "Invalid key length") := by
  refine ⟨?_, ?_, ?_⟩
  · intro message entropy iv hm he heB hiv hivB
    exact roundTrip64 hm he heB hiv hivB
  · intro message entropy iv hm he heB hiv hivB
    exact roundTripHex hm he heB hiv hivB
  · intro message iv entropy he
    exact encryptMessageHex_base64Key_error message iv he

/-- C2 witness: the base64-variant round trip at a concrete message, key
and IV, and the hex-variant rejection of a store-generated key. -/
theorem C2_round_trip_witness :
    (∃ enc, encryptMessage64 [104, 105] (generateCipherKey (List.range 32))
        (List.range 16) = .ok enc ∧
      decryptMessage64 enc (generateCipherKey (List.range 32)) = .ok [104, 105]) ∧
    encryptMessageHex [104, 105] (generateCipherKey (List.range 32)) (List.range 16) =
      .error "Invalid key length" :=
  ⟨C2_round_trip.1 [104, 105] (List.range 32) (List.range 16)
      (by unfold Bytes; decide) (by decide) (by unfold Bytes; decide)
      (by decide) (by unfold Bytes; decide),
   C2_round_trip.2.2 [104, 105] (List.range 16) (List.range 32) (by decide)⟩

/-- C2 counterexample: the claimed law quantifies over every key produced
by `generateCipherKey`, and the source holds two `encryptMessage` variants;
for the hex-key variant the law fails on every such key: with a
store-generated key, encryption itself returns `Invalid key length`, so no
ciphertext exists to decrypt. -/
theorem C2_counterexample :
    encryptMessageHex [112] (generateCipherKey (List.range 32)) (List.range 16) =
      .error "Invalid key length" :=
  encryptMessageHex_base64Key_error [112] (List.range 16) (by decide)

/-! ## C4 -/

/-- C4: confirmed.  `sendMessage` enforces the anonymity invariant at
write time: a patient append with a non-null sender id is rejected before
any write, a doctor row must carry a sender id, every accepted row
satisfies both constraints, and along every coordinator trace from a fresh
process no persisted patient message has a non-null sender id. -/
theorem C4_anonymity :
    (∀ (db : MessagesDB) (p : SendMessageParams),
      p.role = .patient → p.senderId ≠ none →
        sendMessage db p =
          .error "Patient messages must have null senderId for anonymity") ∧
    (∀ (db : MessagesDB) (p : SendMessageParams) (db' : MessagesDB) (m : Message),
      sendMessage db p = .ok (db', m) →
        (m.senderRole = .patient → m.senderId = none) ∧
        (m.senderRole = .doctor → m.senderId ≠ none)) ∧
    (∀ (tr : TrOracle) (rooms : List Room) (evs : List InEvent),
      ∀ m ∈ (run tr (initState rooms) evs).1.messagesDB.rows,
        m.senderRole = .patient → m.senderId = none) := by
  refine ⟨sendMessage_patient_reject, ?_, ?_⟩
  · intro db p db' m h
    obtain ⟨_, _, _, h4, h5⟩ := sendMessage_ok_spec h
    exact ⟨h4, h5⟩
  · intro tr rooms evs m hm
    exact ((dbInv_run tr evs (initState rooms) (dbInv_initState rooms)).1 m hm).1

/-- C4 witness: a patient append with a non-null sender id is rejected at
a concrete input. -/
theorem C4_anonymity_witness :
    sendMessage ⟨[], 0⟩ ⟨"room-a", .patient, some "D1", "hi", "en", none, none, false⟩ =
      .error "Patient messages must have null senderId for anonymity" :=
  C4_anonymity.1 ⟨[], 0⟩ ⟨"room-a", .patient, some "D1", "hi", "en", none, none, false⟩
    rfl (by decide)

/-! ## C8 -/

/-- C8: confirmed.  `leaveRoom` (release-doctor) nulls the room's doctor
id iff the current value equals the releasing doctor's id (else it errors
`Doctor not in this room`), and two successive releases by the claimant
leave the room in the null-doctor state: the second release errors without
changing any room row. -/
theorem C8_release_doctor :
    ∀ (db : List Room) (roomId D : String) (room : Room),
      getRoom db roomId = some room → D ≠ "" →
      (room.doctorId = some D →
        leaveRoom db roomId .doctor (some D) = .ok (updateRoomDoctor db roomId none) ∧
        getRoom (updateRoomDoctor db roomId none) roomId =
          some { room with doctorId := none } ∧
        leaveRoom (updateRoomDoctor db roomId none) roomId .doctor (some D) =
          .error "Doctor not in this room") ∧
      (room.doctorId ≠ some D →
        leaveRoom db roomId .doctor (some D) = .error "Doctor not in this room") := by
  intro db roomId D room hget hD
  have hid : (room.id == roomId) = true := by
    have := List.find?_some hget
    exact this
  have hget2 : getRoom (updateRoomDoctor db roomId none) roomId =
      some { room with doctorId := none } := by
    rw [getRoom_updateRoomDoctor, hget]
    simp [eq_of_beq hid]
  refine ⟨?_, (leaveRoom_release_spec db roomId D room hget hD).2⟩
  intro heq
  refine ⟨(leaveRoom_release_spec db roomId D room hget hD).1 heq, hget2, ?_⟩
  exact (leaveRoom_release_spec _ roomId D _ hget2 hD).2 (by simp)

/-- C8 witness: the full release/idempotence behaviour at a concrete
one-room store whose doctor is `D1`. -/
theorem C8_release_doctor_witness :
    leaveRoom [⟨"room-a", some "D1", "KEY"⟩] "room-a" .doctor (some "D1") =
      .ok (updateRoomDoctor [⟨"room-a", some "D1", "KEY"⟩] "room-a" none) ∧
    getRoom (updateRoomDoctor [⟨"room-a", some "D1", "KEY"⟩] "room-a" none) "room-a" =
      some ⟨"room-a", none, "KEY"⟩ ∧
    leaveRoom (updateRoomDoctor [⟨"room-a", some "D1", "KEY"⟩] "room-a" none)
        "room-a" .doctor (some "D1") = .error "Doctor not in this room" :=
  (C8_release_doctor [⟨"room-a", some "D1", "KEY"⟩] "room-a" "D1"
    ⟨"room-a", some "D1", "KEY"⟩ rfl (by decide)).1 rfl

/-! ## `send_message` commit machinery (C3, C5) -/

theorem sendMessage_ok_of_valid (db : MessagesDB) (p : SendMessageParams)
    (h1 : ¬ (p.role = .patient ∧ p.senderId ≠ none))
    (h2 : ¬ (p.role = .doctor ∧ ¬ jsTruthy p.senderId)) :
    sendMessage db p = .ok (⟨db.rows ++ [mkRow db p], db.nextSeq + 1⟩, mkRow db p) := by
  unfold sendMessage mkRow
  rw [if_neg h1, if_neg h2]

theorem tresOf_cons (tr : TrOracle) (content lang : String) (tc tl : Option String)
    (first : Session) (rest : List Session) :
    tresOf tr content lang tc tl (first :: rest) =
      if first.language ≠ "" ∧ first.language ≠ lang then
        (some (translateMessageSafe tr content first.language lang).1, some first.language,
          (translateMessageSafe tr content first.language lang).2)
      else (tc, tl, false) := rfl

theorem mem_emitToRoomExcept {S : WsState} {roomId sender peer : String} (ev : OutEvent)
    (hp : peer ∈ transportMembers S roomId) (hne : peer ≠ sender) :
    (peer, ev) ∈ emitToRoomExcept S roomId sender ev := by
  unfold emitToRoomExcept
  rw [List.mem_filterMap]
  refine ⟨peer, hp, ?_⟩
  rw [beq_false_of_ne_str hne]
  rfl

/-- One-step evaluation of the `send_message` handler in the committing
case: session found, non-blank content, key fetch succeeded, and the
role/sender-id validation passes. -/
theorem handleSendMessage_commit (tr : TrOracle) (S : WsState) (sid content : String)
    (language : Option String) (tc tl : Option String) (ia : Option Bool)
    {session : Session} {key : String}
    (hs : getSession S sid = some session)
    (hb : jsBlank content = false)
    (hkey : exchangeKeys S.roomsDB session.roomId = .ok key)
    (h1 : ¬ (session.role = .patient ∧ session.doctorId ≠ none))
    (h2 : ¬ (session.role = .doctor ∧ ¬ jsTruthy session.doctorId)) :
    handleSendMessage tr S sid content language tc tl ia =
      (let lang := language.getD "en"
       let others := sendOthers S sid session
       let tres := tresOf tr content lang tc tl others
       let m := mkRow S.messagesDB
         ⟨session.roomId, session.role, session.doctorId, content, lang,
           tres.2.1, tres.1, ia.getD false⟩
       let S' : WsState :=
         { S with messagesDB := ⟨S.messagesDB.rows ++ [m], S.messagesDB.nextSeq + 1⟩ }
       if others.length > 0 then
         (S', emitToRoomExcept S' session.roomId sid
             (.newMessage m.id m.content m.translatedContent m.senderRole m.senderId
               m.language m.targetLanguage m.timestamp m.isAudio tres.2.2) ++
           (if jsTruthy tres.1 ∧ ¬ tres.2.2 then
              emitToRoomExcept S' session.roomId sid
                (.messageTranslated m.id m.translatedContent m.targetLanguage)
            else []) ++
           [(sid, .messageSent m.id m.timestamp)])
       else
         let q' := ((alistGet S'.offlineMessageQueues session.roomId).getD []) ++
           [⟨m.content, m.senderRole, m.senderId, m.language, m.timestamp⟩]
         ({ S' with offlineMessageQueues :=
              alistSet S'.offlineMessageQueues session.roomId q' },
           [(sid, .messageSent m.id m.timestamp)])) := by
  unfold handleSendMessage
  rw [hs]
  dsimp only
  rw [if_neg (show ¬ (jsBlank content = true) by simp [hb])]
  rw [hkey]
  dsimp only
  unfold sendOthers tresOf
  have htres : ∀ others : List Session,
      (match others with
        | [] => ((tc, tl, false) : Option String × Option String × Bool)
        | first :: _ =>
          if first.language ≠ "" ∧ first.language ≠ language.getD "en" then
            ((translateMessageSafe tr content first.language (language.getD "en")).1,
              some first.language,
              (translateMessageSafe tr content first.language (language.getD "en")).2)
          else (tc, tl, false)) =
      tresOf tr content (language.getD "en") tc tl others := by
    intro others
    cases others <;> rfl
  rw [htres]
  rw [sendMessage_ok_of_valid S.messagesDB
    ⟨session.roomId, session.role, session.doctorId, content, language.getD "en",
      (tresOf tr content (language.getD "en") tc tl
        ((getRoomSessions S session.roomId).filter (fun s => s.socketId != sid))).2.1,
      (tresOf tr content (language.getD "en") tc tl
        ((getRoomSessions S session.roomId).filter (fun s => s.socketId != sid))).1,
      ia.getD false⟩ h1 h2]

/-! ## C3 -/

/-- C3: corrected.  When the translation provider fails with a
different-language peer present, the committed row carries
`translatedContent = the original content` (not null, contrary to the
claim), and every transport member of the room other than the sender is
delivered a `new_message` whose translated content equals the original
content and whose `translationError` flag is true. -/
theorem C3_translation_failure (tr : TrOracle) (S : WsState) (sid content : String)
    (language : Option String) {session first : Session} {rest : List Session}
    {key : String}
    (hs : getSession S sid = some session)
    (hb : jsBlank content = false)
    (hkey : exchangeKeys S.roomsDB session.roomId = .ok key)
    (h1 : ¬ (session.role = .patient ∧ session.doctorId ≠ none))
    (h2 : ¬ (session.role = .doctor ∧ ¬ jsTruthy session.doctorId))
    (ho : sendOthers S sid session = first :: rest)
    (hl : first.language ≠ "" ∧ first.language ≠ language.getD "en")
    (hfail : tr content first.language (language.getD "en") = none) :
    ∃ m : Message,
      (handleSendMessage tr S sid content language none none none).1.messagesDB.rows =
        S.messagesDB.rows ++ [m] ∧
      m.content = content ∧ m.translatedContent = some content ∧
      m.translatedContent ≠ none ∧
      ∀ peer ∈ transportMembers S session.roomId, peer ≠ sid →
        (peer, OutEvent.newMessage m.id content (some content) session.role
            session.doctorId (language.getD "en") (some first.language)
            m.timestamp false true) ∈
          (handleSendMessage tr S sid content language none none none).2 := by
  rw [handleSendMessage_commit tr S sid content language none none none hs hb hkey h1 h2]
  dsimp only
  rw [ho]
  rw [tresOf_cons]
  rw [if_pos hl]
  unfold translateMessageSafe
  rw [hfail]
  dsimp only
  rw [if_pos (by simp : (first :: rest).length > 0)]
  refine ⟨_, rfl, rfl, rfl, Option.some_ne_none content, ?_⟩
  intro peer hpeer hne
  apply List.mem_append_left
  apply List.mem_append_left
  exact mem_emitToRoomExcept _ hpeer hne

/-- C3 witness: the translation-failure delivery at a concrete state with
a patient sender and a French-speaking doctor peer. -/
theorem C3_translation_failure_witness :
    ∃ m : Message,
      (handleSendMessage (fun _ _ _ => none)
          ⟨[("s1", ⟨"s1", "room-a", .patient, none, "en"⟩),
            ("s2", ⟨"s2", "room-a", .doctor, some "D1", "fr"⟩)],
            [("room-a", ["s1", "s2"])], [], [("room-a", ["s1", "s2"])],
            [⟨"room-a", some "D1", "KEY"⟩], ⟨[], 0⟩⟩
          "s1" "pain" (some "en") none none none).1.messagesDB.rows =
        [] ++ [m] ∧
      m.content = "pain" ∧ m.translatedContent = some "pain" ∧
      m.translatedContent ≠ none ∧
      ∀ peer ∈ transportMembers
          ⟨[("s1", ⟨"s1", "room-a", .patient, none, "en"⟩),
            ("s2", ⟨"s2", "room-a", .doctor, some "D1", "fr"⟩)],
            [("room-a", ["s1", "s2"])], [], [("room-a", ["s1", "s2"])],
            [⟨"room-a", some "D1", "KEY"⟩], ⟨[], 0⟩⟩ "room-a", peer ≠ "s1" →
        (peer, OutEvent.newMessage m.id "pain" (some "pain") .patient none "en"
            (some "fr") m.timestamp false true) ∈
          (handleSendMessage (fun _ _ _ => none)
            ⟨[("s1", ⟨"s1", "room-a", .patient, none, "en"⟩),
              ("s2", ⟨"s2", "room-a", .doctor, some "D1", "fr"⟩)],
              [("room-a", ["s1", "s2"])], [], [("room-a", ["s1", "s2"])],
              [⟨"room-a", some "D1", "KEY"⟩], ⟨[], 0⟩⟩
            "s1" "pain" (some "en") none none none).2 :=
  C3_translation_failure (fun _ _ _ => none)
    ⟨[("s1", ⟨"s1", "room-a", .patient, none, "en"⟩),
      ("s2", ⟨"s2", "room-a", .doctor, some "D1", "fr"⟩)],
      [("room-a", ["s1", "s2"])], [], [("room-a", ["s1", "s2"])],
      [⟨"room-a", some "D1", "KEY"⟩], ⟨[], 0⟩⟩
    "s1" "pain" (some "en")
    rfl (by decide) rfl (by decide) (by decide) rfl (by decide) rfl

/-- C3 counterexample: in a concrete trace (patient joins, doctor joins
with a different language, patient sends while the provider fails) the
message is persisted with `translated-content = some "pain"`, not the null
the claim requires. -/
theorem C3_counterexample :
    ((run (fun _ _ _ => none) (initState [⟨"room-a", some "D1", "KEY"⟩])
        [.joinRoom "s1" "room-a" "patient" (some "en") none,
         .joinRoom "s2" "room-a" "doctor" (some "fr") (some ⟨"D1", "d@x", "doctor"⟩),
         .sendMsg "s1" "pain" (some "en") none none none]).1.messagesDB.rows.map
      (fun m => m.translatedContent)) = [some "pain"] ∧
    some "pain" ≠ (none : Option String) := by
  exact ⟨by decide, by decide⟩

/-! ## C9 -/

/-- C9: corrected.  For a socket with no active session, `disconnect` is a
silent no-op as claimed, but `leave_room` is not silent: it answers the
socket with an `error` event; neither modifies the state. -/
theorem C9_no_session (tr : TrOracle) (S : WsState) (sid : String)
    (h : getSession S sid = none) :
    step tr S (.leaveRoomEv sid) = (S, [(sid, .errorMsg "No active session found")]) ∧
    step tr S (.disconnect sid) = (S, []) :=
  ⟨step_leave_noSession tr S sid h, step_disconnect_noSession tr S sid h⟩

/-- C9 witness: the no-session behaviour at a fresh state. -/
theorem C9_no_session_witness :
    step (fun _ _ _ => none) (initState []) (.leaveRoomEv "s1") =
      (initState [], [("s1", .errorMsg "No active session found")]) ∧
    step (fun _ _ _ => none) (initState []) (.disconnect "s1") = (initState [], []) :=
  C9_no_session (fun _ _ _ => none) (initState []) "s1" rfl

/-- C9 counterexample: a `leave_room` with no active session does emit an
event (the `No active session found` error), refuting the claim that both
operations return without emitting any event. -/
theorem C9_counterexample :
    (step (fun _ _ _ => none) (initState []) (.leaveRoomEv "s1")).2 =
      [("s1", OutEvent.errorMsg "No active session found")] ∧
    [("s1", OutEvent.errorMsg "No active session found")] ≠ ([] : List Delivery) := by
  exact ⟨rfl, by decide⟩

/-! ## C10 support: `ORDER BY timestamp DESC` on strictly increasing rows -/

theorem sorted_desc_unique (l₁ : List Message) : ∀ l₂ : List Message, l₁.Perm l₂ →
    l₁.Pairwise (fun a b => b.timestamp ≤ a.timestamp) →
    l₂.Pairwise (fun a b => b.timestamp ≤ a.timestamp) →
    l₁.Pairwise (fun a b => a.timestamp ≠ b.timestamp) → l₁ = l₂ := by
  induction l₁ with
  | nil =>
    intro l₂ hp _ _ _
    exact List.Perm.nil_eq hp
  | cons a t ih =>
    intro l₂ hp hs₁ hs₂ hd
    cases l₂ with
    | nil => exact absurd (List.Perm.eq_nil hp) (by simp)
    | cons b t₂ =>
      have hab : a = b := by
        have hbmem : b ∈ a :: t := hp.mem_iff.mpr (List.mem_cons_self b t₂)
        rcases List.mem_cons.mp hbmem with h | h
        · exact h.symm
        · have h1 : b.timestamp ≤ a.timestamp := (List.pairwise_cons.mp hs₁).1 b h
          have hamem : a ∈ b :: t₂ := hp.mem_iff.mp (List.mem_cons_self a t)
          have h2 : a.timestamp ≤ b.timestamp := by
            rcases List.mem_cons.mp hamem with h' | h'
            · rw [h']
            · exact (List.pairwise_cons.mp hs₂).1 a h'
          exact absurd (Nat.le_antisymm h2 h1) ((List.pairwise_cons.mp hd).1 b h)
      subst hab
      rw [ih t₂ hp.cons_inv (List.pairwise_cons.mp hs₁).2 (List.pairwise_cons.mp hs₂).2
        (List.pairwise_cons.mp hd).2]

/-- On rows with strictly increasing timestamps, `ORDER BY timestamp DESC`
is exactly list reversal. -/
theorem mergeSort_desc_eq_reverse (l : List Message)
    (h : l.Pairwise (fun a b => a.timestamp < b.timestamp)) :
    l.mergeSort (fun a b => b.timestamp ≤ a.timestamp) = l.reverse := by
  apply sorted_desc_unique
  · exact (List.mergeSort_perm l _).trans (List.reverse_perm l).symm
  · have hs := @List.sorted_mergeSort Message
      (fun a b => decide (b.timestamp ≤ a.timestamp))
      (fun a b c h1 h2 => by
        simp only [decide_eq_true_eq] at h1 h2 ⊢
        omega)
      (fun a b => by
        simp only [Bool.or_eq_true, decide_eq_true_eq]
        omega) l
    exact hs.imp (fun hx => of_decide_eq_true hx)
  · exact List.pairwise_reverse.mpr (h.imp (fun hx => Nat.le_of_lt hx))
  · have hd : l.Pairwise (fun a b => a.timestamp ≠ b.timestamp) :=
      h.imp (fun hx => Nat.ne_of_lt hx)
    exact ((List.Perm.pairwise_iff (fun hx => hx.symm)
      (List.mergeSort_perm l _)).mpr hd : _)

theorem getMessages_eq_reverse (db : MessagesDB) (roomId : String) (limit offset : Nat)
    (h : db.rows.Pairwise (fun a b => a.timestamp < b.timestamp)) :
    getMessages db roomId limit offset =
      ((roomMsgs db roomId).reverse.drop offset).take limit := by
  have hf : (roomMsgs db roomId).Pairwise (fun a b => a.timestamp < b.timestamp) :=
    List.Pairwise.sublist (List.filter_sublist db.rows) h
  rw [show getMessages db roomId limit offset =
    (((roomMsgs db roomId).mergeSort (fun a b => b.timestamp ≤ a.timestamp)).drop
      offset).take limit from rfl]
  rw [mergeSort_desc_eq_reverse _ hf]

/-! ## C10 -/

/-- C10: confirmed.  The paginated read validates `limit ∈ [1,100]` and
`offset ≥ 0`; on rows with strictly increasing timestamps (which every
reachable message table has) a page is the reverse-chronological list with
`offset` newest records skipped, holds at most `limit` records, is sorted
newest-first, `limit=1, offset=0` returns exactly the newest room message,
and `offset = N` (the room's message count) returns the empty list. -/
theorem C10_pagination :
    (∀ (rooms : List Room) (db : MessagesDB) (roomId : String)
        (limitQ offsetQ : Option Int) (ms : List Message) (l o : Int),
      routeGetMessages rooms db roomId limitQ offsetQ = .ok ms l o →
        1 ≤ l ∧ l ≤ 100 ∧ 0 ≤ o ∧ ms = getMessages db roomId l.toNat o.toNat) ∧
    (∀ (db : MessagesDB) (roomId : String) (limit offset : Nat),
      db.rows.Pairwise (fun a b => a.timestamp < b.timestamp) →
        getMessages db roomId limit offset =
          ((roomMsgs db roomId).reverse.drop offset).take limit ∧
        (getMessages db roomId limit offset).length ≤ limit ∧
        (getMessages db roomId limit offset).Pairwise
          (fun a b => b.timestamp < a.timestamp)) ∧
    (∀ (db : MessagesDB) (roomId : String) (m : Message),
      db.rows.Pairwise (fun a b => a.timestamp < b.timestamp) →
      (roomMsgs db roomId).getLast? = some m →
        getMessages db roomId 1 0 = [m] ∧
        ∀ x ∈ roomMsgs db roomId, x.timestamp ≤ m.timestamp) ∧
    (∀ (db : MessagesDB) (roomId : String) (limit : Nat),
      db.rows.Pairwise (fun a b => a.timestamp < b.timestamp) →
        getMessages db roomId limit (roomMsgs db roomId).length = []) := by
  refine ⟨?_, ?_, ?_, ?_⟩
  · intro rooms db roomId limitQ offsetQ ms l o h
    unfold routeGetMessages at h
    dsimp only at h
    split at h
    · cases h
    split at h
    · cases h
    split at h
    · cases h
    split at h
    · cases h
    · injection h with h1 h2 h3
      subst h2; subst h3
      refine ⟨?_, ?_, ?_, h1.symm⟩ <;> omega
  · intro db roomId limit offset h
    have he := getMessages_eq_reverse db roomId limit offset h
    refine ⟨he, List.length_take_le _ _, ?_⟩
    rw [he]
    have hrev : (roomMsgs db roomId).reverse.Pairwise
        (fun a b => b.timestamp < a.timestamp) :=
      List.pairwise_reverse.mpr
        (List.Pairwise.sublist (List.filter_sublist db.rows) h)
    exact List.Pairwise.sublist
      ((List.take_sublist _ _).trans (List.drop_sublist _ _)) hrev
  · intro db roomId m h hlast
    have he := getMessages_eq_reverse db roomId 1 0 h
    have hrev : (roomMsgs db roomId).reverse.Pairwise
        (fun a b => b.timestamp < a.timestamp) :=
      List.pairwise_reverse.mpr
        (List.Pairwise.sublist (List.filter_sublist db.rows) h)
    have hhead : (roomMsgs db roomId).reverse.head? = some m := by
      rw [List.head?_reverse]
      exact hlast
    cases hr : (roomMsgs db roomId).reverse with
    | nil => rw [hr] at hhead; cases hhead
    | cons hd tl =>
      rw [hr] at hhead
      injection hhead with hhd
      subst hhd
      constructor
      · rw [he, hr]
        rfl
      · intro x hx
        have hx' : x ∈ (roomMsgs db roomId).reverse := List.mem_reverse.mpr hx
        rw [hr] at hx' hrev
        rcases List.mem_cons.mp hx' with h' | h'
        · rw [h']
        · exact Nat.le_of_lt ((List.pairwise_cons.mp hrev).1 x h')
  · intro db roomId limit h
    rw [getMessages_eq_reverse db roomId limit _ h]
    rw [← List.length_reverse (roomMsgs db roomId)]
    rw [List.drop_length]
    exact List.take_nil

/-- C10 witness: pagination at a concrete two-row table: the route accepts
`limit=1, offset=0` and the page is exactly the newest message; the
room-count offset gives the empty page. -/
theorem C10_pagination_witness :
    getMessages ⟨[⟨0, "room-a", .patient, none, "a", none, "en", none, 0, false⟩,
        ⟨1, "room-a", .doctor, some "D1", "b", none, "en", none, 1, false⟩], 2⟩
      "room-a" 1 0 =
      [⟨1, "room-a", .doctor, some "D1", "b", none, "en", none, 1, false⟩] ∧
    getMessages ⟨[⟨0, "room-a", .patient, none, "a", none, "en", none, 0, false⟩,
        ⟨1, "room-a", .doctor, some "D1", "b", none, "en", none, 1, false⟩], 2⟩
      "room-a" 5 2 = [] :=
  ⟨(C10_pagination.2.2.1 _ "room-a"
      ⟨1, "room-a", .doctor, some "D1", "b", none, "en", none, 1, false⟩
      (by decide) (by decide)).1,
   C10_pagination.2.2.2 _ "room-a" 5 (by decide)⟩

/-! ## C6 support -/

theorem transportMembers_joinRoomAdmit (S : WsState) (sid roomId : String)
    (roleV : Role) (lang : String) (doctorId : Option String) :
    transportMembers (joinRoomAdmit S sid roomId roleV lang doctorId).1 roomId =
      addToSet (transportMembers S roomId) sid := by
  unfold joinRoomAdmit
  dsimp only
  split <;>
    (show (alistGet (alistSet (createSession S
        ⟨sid, roomId, roleV, doctorId, lang⟩).transportRooms roomId
        (addToSet (transportMembers (createSession S
          ⟨sid, roomId, roleV, doctorId, lang⟩) roomId) sid)) roomId).getD [] = _
     rw [alistGet_alistSet_self]
     rfl)

theorem joinRoomAdmit_key_delivery (S : WsState) (sid roomId : String) (roleV : Role)
    (lang : String) (doctorId : Option String) (key : String)
    (hboth : areBothParticipantsPresent
        (joinRoomAdmit S sid roomId roleV lang doctorId).1 roomId = true)
    (hkey : exchangeKeys S.roomsDB roomId = .ok key) :
    ∀ peer ∈ transportMembers (joinRoomAdmit S sid roomId roleV lang doctorId).1 roomId,
      (peer, OutEvent.cipherKeyExchange key) ∈
        (joinRoomAdmit S sid roomId roleV lang doctorId).2 := by
  unfold joinRoomAdmit at hboth ⊢
  dsimp only at hboth ⊢
  by_cases hq : ((alistGet (transportJoin (createSession S
      ⟨sid, roomId, roleV, doctorId, lang⟩) sid roomId).offlineMessageQueues
      roomId).getD []).length > 0
  · simp only [if_pos hq] at hboth ⊢
    simp only [transportJoin, createSession, emitToRoom] at hboth ⊢
    intro peer hpeer
    rw [if_pos hboth]
    split
    · rename_i k' heq
      rw [hkey] at heq
      injection heq with hk
      subst hk
      exact List.mem_append_right _ (List.mem_map.mpr ⟨peer, hpeer, rfl⟩)
    · rename_i heq
      rw [hkey] at heq
      cases heq
  · simp only [if_neg hq] at hboth ⊢
    simp only [transportJoin, createSession, emitToRoom] at hboth ⊢
    intro peer hpeer
    rw [if_pos hboth]
    split
    · rename_i k' heq
      rw [hkey] at heq
      injection heq with hk
      subst hk
      exact List.mem_append_right _ (List.mem_map.mpr ⟨peer, hpeer, rfl⟩)
    · rename_i heq
      rw [hkey] at heq
      cases heq

/-! ## C6 -/

/-- C6: corrected.  When a `join_room` admission leaves both roles present
in the room and the key fetch succeeds, the cipher key is emitted to every
*transport* member of the room, the joiner included.  The global form of
the claim (every currently-joined socket in every reachable both-present
state has received the key) is false: the registry and the transport room
can diverge, and a registry member outside the transport room receives
nothing. -/
theorem C6_key_broadcast (S : WsState) (sid roomId : String) (roleV : Role)
    (lang : String) (doctorId : Option String) (key : String)
    (hboth : areBothParticipantsPresent
        (joinRoomAdmit S sid roomId roleV lang doctorId).1 roomId = true)
    (hkey : exchangeKeys S.roomsDB roomId = .ok key) :
    sid ∈ transportMembers (joinRoomAdmit S sid roomId roleV lang doctorId).1 roomId ∧
    ∀ peer ∈ transportMembers (joinRoomAdmit S sid roomId roleV lang doctorId).1 roomId,
      (peer, OutEvent.cipherKeyExchange key) ∈
        (joinRoomAdmit S sid roomId roleV lang doctorId).2 := by
  constructor
  · rw [transportMembers_joinRoomAdmit]
    exact mem_addToSet_iff.mpr (Or.inr rfl)
  · exact joinRoomAdmit_key_delivery S sid roomId roleV lang doctorId key hboth hkey

/-- C6 witness: a doctor joining a room already holding a patient triggers
the key broadcast; both transport members (the patient and the joining
doctor) receive the key. -/
theorem C6_key_broadcast_witness :
    "s2" ∈ transportMembers (joinRoomAdmit
      ⟨[("s1", ⟨"s1", "room-a", .patient, none, "en"⟩)], [("room-a", ["s1"])], [],
        [("room-a", ["s1"])], [⟨"room-a", none, "KEY"⟩], ⟨[], 0⟩⟩
      "s2" "room-a" .doctor "en" (some "D1")).1 "room-a" ∧
    ∀ peer ∈ transportMembers (joinRoomAdmit
      ⟨[("s1", ⟨"s1", "room-a", .patient, none, "en"⟩)], [("room-a", ["s1"])], [],
        [("room-a", ["s1"])], [⟨"room-a", none, "KEY"⟩], ⟨[], 0⟩⟩
      "s2" "room-a" .doctor "en" (some "D1")).1 "room-a",
      (peer, OutEvent.cipherKeyExchange "KEY") ∈
        (joinRoomAdmit
          ⟨[("s1", ⟨"s1", "room-a", .patient, none, "en"⟩)], [("room-a", ["s1"])], [],
            [("room-a", ["s1"])], [⟨"room-a", none, "KEY"⟩], ⟨[], 0⟩⟩
          "s2" "room-a" .doctor "en" (some "D1")).2 :=
  C6_key_broadcast
    ⟨[("s1", ⟨"s1", "room-a", .patient, none, "en"⟩)], [("room-a", ["s1"])], [],
      [("room-a", ["s1"])], [⟨"room-a", none, "KEY"⟩], ⟨[], 0⟩⟩
    "s2" "room-a" .doctor "en" (some "D1") "KEY" (by decide) rfl

/-- C6 counterexample: a reachable state in which both roles are present
in `room-a` and the doctor's socket holds a live session, yet no
`cipher_key_exchange` was ever delivered to it: the doctor (whose session
doctor id differs from the room record's) fails its room release on
`leave_room`, which keeps the session and registry entry but removes the
socket from the transport room, so the later key broadcast misses it. -/
theorem C6_counterexample :
    areBothParticipantsPresent (run (fun _ _ _ => none)
      (initState [⟨"room-a", some "D2", "KEY"⟩])
      [.joinRoom "s2" "room-a" "doctor" (some "en") (some ⟨"D1", "e", "doctor"⟩),
       .leaveRoomEv "s2",
       .joinRoom "s1" "room-a" "patient" (some "en") none]).1 "room-a" = true ∧
    getSession (run (fun _ _ _ => none)
      (initState [⟨"room-a", some "D2", "KEY"⟩])
      [.joinRoom "s2" "room-a" "doctor" (some "en") (some ⟨"D1", "e", "doctor"⟩),
       .leaveRoomEv "s2",
       .joinRoom "s1" "room-a" "patient" (some "en") none]).1 "s2" =
      some ⟨"s2", "room-a", .doctor, some "D1", "en"⟩ ∧
    ((run (fun _ _ _ => none)
      (initState [⟨"room-a", some "D2", "KEY"⟩])
      [.joinRoom "s2" "room-a" "doctor" (some "en") (some ⟨"D1", "e", "doctor"⟩),
       .leaveRoomEv "s2",
       .joinRoom "s1" "room-a" "patient" (some "en") none]).2.filter
        (fun d => d.1 == "s2" && isCipherKeyExchange d.2)) = [] := by
  refine ⟨?_, ?_, ?_⟩ <;> decide

/-! ## C5 support -/

theorem snd_of_mem_emitToRoomExcept {S : WsState} {roomId sender : String}
    {ev : OutEvent} {d : Delivery} (h : d ∈ emitToRoomExcept S roomId sender ev) :
    d.2 = ev := by
  unfold emitToRoomExcept at h
  rw [List.mem_filterMap] at h
  obtain ⟨m, _, hm⟩ := h
  by_cases hc : (m == sender) = true
  · rw [if_pos hc] at hm
    cases hm
  · rw [if_neg hc] at hm
    injection hm with hm
    subst hm
    rfl

theorem snd_of_mem_emitToRoom {S : WsState} {roomId : String} {ev : OutEvent}
    {d : Delivery} (h : d ∈ emitToRoom S roomId ev) : d.2 = ev := by
  unfold emitToRoom at h
  rw [List.mem_map] at h
  obtain ⟨m, _, hm⟩ := h
  subst hm
  rfl

theorem filter_nmq_emitToRoomExcept {S : WsState} {roomId sender : String}
    {ev : OutEvent} (hev : isNewMessageQueued ev = false) :
    (emitToRoomExcept S roomId sender ev).filter
      (fun d => isNewMessageQueued d.2) = [] := by
  rw [List.filter_eq_nil_iff]
  intro d hd
  rw [snd_of_mem_emitToRoomExcept hd, hev]
  simp

theorem filter_nmq_emitToRoom {S : WsState} {roomId : String} {ev : OutEvent}
    (hev : isNewMessageQueued ev = false) :
    (emitToRoom S roomId ev).filter (fun d => isNewMessageQueued d.2) = [] := by
  rw [List.filter_eq_nil_iff]
  intro d hd
  rw [snd_of_mem_emitToRoom hd, hev]
  simp

theorem filter_nmq_roomJoined (sid roomId : String) (roleV : Role)
    (doctorId : Option String) (pp dp : Bool) :
    List.filter (fun d => isNewMessageQueued d.2)
      ([(sid, OutEvent.roomJoined roomId roleV doctorId pp dp)] : List Delivery) =
      [] := rfl

theorem filter_nmq_errorMsg (sid msg : String) :
    List.filter (fun d => isNewMessageQueued d.2)
      ([(sid, OutEvent.errorMsg msg)] : List Delivery) = [] := rfl

theorem filter_nmq_userJoined {S : WsState} {roomId sender : String} (roleV : Role)
    (doctorId : Option String) :
    (emitToRoomExcept S roomId sender (.userJoined roleV doctorId)).filter
      (fun d => isNewMessageQueued d.2) = [] :=
  filter_nmq_emitToRoomExcept rfl

theorem filter_nmq_keyExchange {S : WsState} {roomId : String} (key : String) :
    (emitToRoom S roomId (.cipherKeyExchange key)).filter
      (fun d => isNewMessageQueued d.2) = [] :=
  filter_nmq_emitToRoom rfl

theorem filter_nmq_drain (sid : String) (q : List QueuedMessage) :
    List.filter (fun d => isNewMessageQueued d.2)
      (q.map (fun qm => ((sid, OutEvent.newMessageQueued qm.content qm.senderRole
        qm.senderId qm.language qm.timestamp) : Delivery))) =
      q.map (fun qm => (sid, OutEvent.newMessageQueued qm.content qm.senderRole
        qm.senderId qm.language qm.timestamp)) :=
  List.filter_eq_self.mpr (fun a ha => by
    obtain ⟨qm, _, h⟩ := List.mem_map.mp ha
    subst h
    rfl)

theorem handleSendMessage_broadcast (tr : TrOracle) (S : WsState) (sid content : String)
    (language : Option String) (tc tl : Option String) (ia : Option Bool)
    {session first : Session} {rest : List Session} {key : String}
    (hs : getSession S sid = some session)
    (hb : jsBlank content = false)
    (hkey : exchangeKeys S.roomsDB session.roomId = .ok key)
    (h1 : ¬ (session.role = .patient ∧ session.doctorId ≠ none))
    (h2 : ¬ (session.role = .doctor ∧ ¬ jsTruthy session.doctorId))
    (ho : sendOthers S sid session = first :: rest) :
    ∃ m : Message,
      (handleSendMessage tr S sid content language tc tl ia).1.messagesDB.rows =
        S.messagesDB.rows ++ [m] ∧ m.content = content ∧
      ∀ peer ∈ transportMembers S session.roomId, peer ≠ sid →
        ∃ tcd tld te, (peer, OutEvent.newMessage m.id m.content tcd m.senderRole
            m.senderId m.language tld m.timestamp m.isAudio te) ∈
          (handleSendMessage tr S sid content language tc tl ia).2 := by
  rw [handleSendMessage_commit tr S sid content language tc tl ia hs hb hkey h1 h2]
  dsimp only
  rw [ho]
  rw [if_pos (by simp : (first :: rest).length > 0)]
  refine ⟨_, rfl, rfl, ?_⟩
  intro peer hpeer hne
  exact ⟨_, _, _, List.mem_append_left _ (List.mem_append_left _
    (mem_emitToRoomExcept _ hpeer hne))⟩

theorem handleSendMessage_enqueue (tr : TrOracle) (S : WsState) (sid content : String)
    (language : Option String) (tc tl : Option String) (ia : Option Bool)
    {session : Session} {key : String}
    (hs : getSession S sid = some session)
    (hb : jsBlank content = false)
    (hkey : exchangeKeys S.roomsDB session.roomId = .ok key)
    (h1 : ¬ (session.role = .patient ∧ session.doctorId ≠ none))
    (h2 : ¬ (session.role = .doctor ∧ ¬ jsTruthy session.doctorId))
    (ho : sendOthers S sid session = []) :
    ∃ m : Message,
      (handleSendMessage tr S sid content language tc tl ia).1.messagesDB.rows =
        S.messagesDB.rows ++ [m] ∧ m.content = content ∧
      alistGet (handleSendMessage tr S sid content language tc tl
          ia).1.offlineMessageQueues session.roomId =
        some (((alistGet S.offlineMessageQueues session.roomId).getD []) ++
          [⟨content, session.role, session.doctorId, language.getD "en",
            S.messagesDB.nextSeq⟩]) ∧
      (handleSendMessage tr S sid content language tc tl ia).2 =
        [(sid, OutEvent.messageSent S.messagesDB.nextSeq S.messagesDB.nextSeq)] := by
  rw [handleSendMessage_commit tr S sid content language tc tl ia hs hb hkey h1 h2]
  dsimp only
  rw [ho]
  rw [if_neg (by simp : ¬ (([] : List Session).length > 0))]
  refine ⟨_, rfl, rfl, ?_, rfl⟩
  show alistGet (alistSet _ _ _) _ = _
  rw [alistGet_alistSet_self]
  rfl

theorem joinRoomAdmit_drain (S : WsState) (sid roomId : String) (roleV : Role)
    (lang : String) (doctorId : Option String) (q : List QueuedMessage)
    (hq : alistGet S.offlineMessageQueues roomId = some q) :
    ((joinRoomAdmit S sid roomId roleV lang doctorId).2.filter
        (fun d => isNewMessageQueued d.2)) =
      q.map (fun qm => (sid, OutEvent.newMessageQueued qm.content qm.senderRole
        qm.senderId qm.language qm.timestamp)) ∧
    (q ≠ [] → alistGet (joinRoomAdmit S sid roomId roleV lang
        doctorId).1.offlineMessageQueues roomId = none) := by
  unfold joinRoomAdmit
  dsimp only
  have hq2 : alistGet (transportJoin (createSession S
      ⟨sid, roomId, roleV, doctorId, lang⟩) sid roomId).offlineMessageQueues roomId =
      some q := hq
  rw [hq2]
  rw [Option.getD_some]
  cases q with
  | nil =>
    rw [if_neg (by simp : ¬ (List.length ([] : List QueuedMessage) > 0))]
    rw [if_neg (by simp : ¬ (List.length ([] : List QueuedMessage) > 0))]
    constructor
    · rw [List.filter_append, List.filter_append, List.filter_append]
      rw [List.map_nil]
      rw [filter_nmq_roomJoined, filter_nmq_userJoined]
      split
      · split
        · rw [filter_nmq_keyExchange]
          simp
        · rw [filter_nmq_errorMsg]
          simp
      · simp
    · intro hne
      exact absurd rfl hne
  | cons qm qs =>
    rw [if_pos (by simp : List.length (qm :: qs) > 0)]
    rw [if_pos (by simp : List.length (qm :: qs) > 0)]
    constructor
    · rw [List.filter_append, List.filter_append, List.filter_append]
      rw [filter_nmq_roomJoined, filter_nmq_userJoined, filter_nmq_drain]
      split
      · split
        · rw [filter_nmq_keyExchange]
          simp
        · rw [filter_nmq_errorMsg]
          simp
      · simp
    · intro _
      show alistGet (alistDelete _ _) _ = none
      exact alistGet_alistDelete_self _ _

/-! ## C5 -/

/-- C5: corrected.  If the sender has peers in the room registry at commit
time, every *transport* member other than the sender is delivered a
`new_message` for the committed row.  If the sender is alone, the row is
appended to the room's offline queue and only `message_sent` is emitted.
The queue is then drained *to the next joiner of the room, whoever that
is* (not necessarily the absent peer): the join deliveries contain exactly
one queued-message event per queue entry, all addressed to the joiner, and
the queue entry is deleted. -/
theorem C5_delivery :
    (∀ (tr : TrOracle) (S : WsState) (sid content : String)
        (language : Option String) (tc tl : Option String) (ia : Option Bool)
        (session first : Session) (rest : List Session) (key : String),
      getSession S sid = some session → jsBlank content = false →
      exchangeKeys S.roomsDB session.roomId = .ok key →
      ¬ (session.role = .patient ∧ session.doctorId ≠ none) →
      ¬ (session.role = .doctor ∧ ¬ jsTruthy session.doctorId) →
      sendOthers S sid session = first :: rest →
        ∃ m : Message,
          (handleSendMessage tr S sid content language tc tl ia).1.messagesDB.rows =
            S.messagesDB.rows ++ [m] ∧ m.content = content ∧
          ∀ peer ∈ transportMembers S session.roomId, peer ≠ sid →
            ∃ tcd tld te, (peer, OutEvent.newMessage m.id m.content tcd m.senderRole
                m.senderId m.language tld m.timestamp m.isAudio te) ∈
              (handleSendMessage tr S sid content language tc tl ia).2) ∧
    (∀ (tr : TrOracle) (S : WsState) (sid content : String)
        (language : Option String) (tc tl : Option String) (ia : Option Bool)
        (session : Session) (key : String),
      getSession S sid = some session → jsBlank content = false →
      exchangeKeys S.roomsDB session.roomId = .ok key →
      ¬ (session.role = .patient ∧ session.doctorId ≠ none) →
      ¬ (session.role = .doctor ∧ ¬ jsTruthy session.doctorId) →
      sendOthers S sid session = [] →
        ∃ m : Message,
          (handleSendMessage tr S sid content language tc tl ia).1.messagesDB.rows =
            S.messagesDB.rows ++ [m] ∧ m.content = content ∧
          alistGet (handleSendMessage tr S sid content language tc tl
              ia).1.offlineMessageQueues session.roomId =
            some (((alistGet S.offlineMessageQueues session.roomId).getD []) ++
              [⟨content, session.role, session.doctorId, language.getD "en",
                S.messagesDB.nextSeq⟩]) ∧
          (handleSendMessage tr S sid content language tc tl ia).2 =
            [(sid, OutEvent.messageSent S.messagesDB.nextSeq S.messagesDB.nextSeq)]) ∧
    (∀ (S : WsState) (sid roomId : String) (roleV : Role) (lang : String)
        (doctorId : Option String) (q : List QueuedMessage),
      alistGet S.offlineMessageQueues roomId = some q →
        ((joinRoomAdmit S sid roomId roleV lang doctorId).2.filter
            (fun d => isNewMessageQueued d.2)) =
          q.map (fun qm => (sid, OutEvent.newMessageQueued qm.content qm.senderRole
            qm.senderId qm.language qm.timestamp)) ∧
        (q ≠ [] → alistGet (joinRoomAdmit S sid roomId roleV lang
            doctorId).1.offlineMessageQueues roomId = none)) := by
  refine ⟨?_, ?_, ?_⟩
  · intro tr S sid content language tc tl ia session first rest key hs hb hkey h1 h2 ho
    exact handleSendMessage_broadcast tr S sid content language tc tl ia
      hs hb hkey h1 h2 ho
  · intro tr S sid content language tc tl ia session key hs hb hkey h1 h2 ho
    exact handleSendMessage_enqueue tr S sid content language tc tl ia
      hs hb hkey h1 h2 ho
  · intro S sid roomId roleV lang doctorId q hq
    exact joinRoomAdmit_drain S sid roomId roleV lang doctorId q hq

/-- C5 witness: a queued message is drained exactly once to a joining
doctor, and the queue entry is gone afterwards. -/
theorem C5_delivery_witness :
    ((joinRoomAdmit
        ⟨[], [], [("room-a", [⟨"hi", .patient, none, "en", 0⟩])], [],
          [⟨"room-a", none, "KEY"⟩], ⟨[], 1⟩⟩
        "s2" "room-a" .doctor "en" (some "D1")).2.filter
      (fun d => isNewMessageQueued d.2)) =
      [("s2", OutEvent.newMessageQueued "hi" .patient none "en" 0)] ∧
    alistGet (joinRoomAdmit
        ⟨[], [], [("room-a", [⟨"hi", .patient, none, "en", 0⟩])], [],
          [⟨"room-a", none, "KEY"⟩], ⟨[], 1⟩⟩
        "s2" "room-a" .doctor "en" (some "D1")).1.offlineMessageQueues "room-a" =
      none :=
  have h := C5_delivery.2.2
    ⟨[], [], [("room-a", [⟨"hi", .patient, none, "en", 0⟩])], [],
      [⟨"room-a", none, "KEY"⟩], ⟨[], 1⟩⟩
    "s2" "room-a" .doctor "en" (some "D1") [⟨"hi", .patient, none, "en", 0⟩] rfl
  ⟨h.1, h.2 (by decide)⟩

/-- C5 counterexample: the drain goes to the *next joiner*, not to the
absent peer.  A patient sends while alone (the message is queued), leaves,
and rejoins: the queue is drained back to the sender and deleted.  When
the doctor (the absent peer) then joins, the doctor receives no delivery
carrying the message at all, refuting "the absent peer receives exactly
one new_message for M on its next join_room". -/
theorem C5_counterexample :
    (((run (fun _ _ _ => none) (initState [⟨"room-a", some "D1", "KEY"⟩])
        [.joinRoom "s1" "room-a" "patient" (some "en") none,
         .sendMsg "s1" "hello" (some "en") none none none,
         .leaveRoomEv "s1",
         .joinRoom "s1" "room-a" "patient" (some "en") none,
         .joinRoom "s2" "room-a" "doctor" (some "en")
           (some ⟨"D1", "e", "doctor"⟩)]).2.filter
      (fun d => carriesContent "hello" d.2)).map (fun d => d.1)) = ["s1"] ∧
    alistGet (run (fun _ _ _ => none) (initState [⟨"room-a", some "D1", "KEY"⟩])
        [.joinRoom "s1" "room-a" "patient" (some "en") none,
         .sendMsg "s1" "hello" (some "en") none none none,
         .leaveRoomEv "s1",
         .joinRoom "s1" "room-a" "patient" (some "en") none,
         .joinRoom "s2" "room-a" "doctor" (some "en")
           (some ⟨"D1", "e", "doctor"⟩)]).1.offlineMessageQueues "room-a" = none ∧
    getSession (run (fun _ _ _ => none) (initState [⟨"room-a", some "D1", "KEY"⟩])
        [.joinRoom "s1" "room-a" "patient" (some "en") none,
         .sendMsg "s1" "hello" (some "en") none none none,
         .leaveRoomEv "s1",
         .joinRoom "s1" "room-a" "patient" (some "en") none,
         .joinRoom "s2" "room-a" "doctor" (some "en")
           (some ⟨"D1", "e", "doctor"⟩)]).1 "s2" =
      some ⟨"s2", "room-a", .doctor, some "D1", "en"⟩ := by
  refine ⟨?_, ?_, ?_⟩ <;> decide

/-! ## C7: the room-membership index over createSession/deleteSession -/

theorem indexInv_initState (rooms : List Room) : IndexInv (initState rooms) := by
  constructor
  · intro roomId sid
    simp [initState, alistGet]
  · intro roomId participants h
    simp [initState, alistGet] at h

theorem indexInv_createSession {S : WsState} (s : Session)
    (hI : IndexInv S) (hfresh : alistGet S.sessions s.socketId = none) :
    IndexInv (createSession S s) := by
  obtain ⟨hmem, hne⟩ := hI
  unfold IndexInv createSession
  dsimp only
  constructor
  · intro roomId sid
    by_cases hsid : sid = s.socketId
    · subst hsid
      rw [alistGet_alistSet_self]
      by_cases hroom : roomId = s.roomId
      · subst hroom
        rw [alistGet_alistSet_self, Option.getD_some]
        constructor
        · intro _
          exact ⟨s, rfl, rfl⟩
        · intro _
          exact mem_addToSet_iff.mpr (Or.inr rfl)
      · rw [alistGet_alistSet_ne _ _ _ _ hroom]
        constructor
        · intro hmem2
          obtain ⟨sess, hget, _⟩ := (hmem roomId s.socketId).mp hmem2
          rw [hfresh] at hget
          cases hget
        · rintro ⟨sess, hget, hrid⟩
          injection hget with hg
          subst hg
          exact absurd hrid.symm hroom
    · rw [alistGet_alistSet_ne _ _ _ _ hsid]
      by_cases hroom : roomId = s.roomId
      · subst hroom
        rw [alistGet_alistSet_self, Option.getD_some]
        rw [mem_addToSet_iff]
        constructor
        · intro h
          rcases h with h | h
          · exact (hmem s.roomId sid).mp h
          · exact absurd h hsid
        · intro h
          exact Or.inl ((hmem s.roomId sid).mpr h)
      · rw [alistGet_alistSet_ne _ _ _ _ hroom]
        exact hmem roomId sid
  · intro roomId participants hget
    by_cases hroom : roomId = s.roomId
    · subst hroom
      rw [alistGet_alistSet_self] at hget
      injection hget with hg
      subst hg
      intro hnil
      have hself : s.socketId ∈
          addToSet ((alistGet S.roomParticipants s.roomId).getD []) s.socketId :=
        mem_addToSet_iff.mpr (Or.inr rfl)
      rw [hnil] at hself
      cases hself
    · rw [alistGet_alistSet_ne _ _ _ _ hroom] at hget
      exact hne roomId participants hget

theorem deleteSession_eq_none (S : WsState) (sid : String)
    (hs : alistGet S.sessions sid = none) :
    deleteSession S sid =
      ⟨alistDelete S.sessions sid, S.roomParticipants, S.offlineMessageQueues,
        S.transportRooms, S.roomsDB, S.messagesDB⟩ := by
  unfold deleteSession
  simp only [hs]

theorem deleteSession_eq_noparts (S : WsState) (sid : String) {session : Session}
    (hs : alistGet S.sessions sid = some session)
    (hp : alistGet S.roomParticipants session.roomId = none) :
    deleteSession S sid =
      ⟨alistDelete S.sessions sid, S.roomParticipants, S.offlineMessageQueues,
        S.transportRooms, S.roomsDB, S.messagesDB⟩ := by
  unfold deleteSession
  simp only [hs, hp]

theorem deleteSession_eq_of_some (S : WsState) (sid : String) {session : Session}
    {parts : List String}
    (hs : alistGet S.sessions sid = some session)
    (hp : alistGet S.roomParticipants session.roomId = some parts) :
    deleteSession S sid =
      if (removeFromSet parts sid).length = 0 then
        ⟨alistDelete S.sessions sid, alistDelete S.roomParticipants session.roomId,
          S.offlineMessageQueues, S.transportRooms, S.roomsDB, S.messagesDB⟩
      else
        ⟨alistDelete S.sessions sid,
          alistSet S.roomParticipants session.roomId (removeFromSet parts sid),
          S.offlineMessageQueues, S.transportRooms, S.roomsDB, S.messagesDB⟩ := by
  unfold deleteSession
  simp only [hs, hp]
  split <;> rfl

theorem indexInv_deleteSession {S : WsState} (sid : String) (hI : IndexInv S) :
    IndexInv (deleteSession S sid) := by
  obtain ⟨hmem, hne⟩ := hI
  cases hs : alistGet S.sessions sid with
  | none =>
    rw [deleteSession_eq_none S sid hs]
    unfold IndexInv
    dsimp only
    constructor
    · intro roomId q
      by_cases hq : q = sid
      · subst hq
        rw [alistGet_alistDelete_self]
        constructor
        · intro hmem2
          obtain ⟨sess, hget, _⟩ := (hmem roomId q).mp hmem2
          rw [hs] at hget
          cases hget
        · rintro ⟨sess, hget, _⟩
          cases hget
      · rw [alistGet_alistDelete_ne _ _ _ hq]
        exact hmem roomId q
    · exact hne
  | some session =>
    cases hp : alistGet S.roomParticipants session.roomId with
    | none =>
      have hself := (hmem session.roomId sid).mpr ⟨session, hs, rfl⟩
      rw [hp] at hself
      cases hself
    | some parts =>
      rw [deleteSession_eq_of_some S sid hs hp]
      by_cases hlen : (removeFromSet parts sid).length = 0
      · rw [if_pos hlen]
        have hrempty : removeFromSet parts sid = [] :=
          List.length_eq_zero.mp hlen
        unfold IndexInv
        dsimp only
        constructor
        · intro roomId q
          by_cases hroom : roomId = session.roomId
          · subst hroom
            rw [alistGet_alistDelete_self]
            constructor
            · intro hmem2
              simp at hmem2
            · rintro ⟨sess, hget, hrid⟩
              by_cases hq : q = sid
              · subst hq
                rw [alistGet_alistDelete_self] at hget
                cases hget
              · rw [alistGet_alistDelete_ne _ _ _ hq] at hget
                have hmemq : q ∈ (alistGet S.roomParticipants
                    session.roomId).getD [] :=
                  (hmem session.roomId q).mpr ⟨sess, hget, hrid⟩
                rw [hp, Option.getD_some] at hmemq
                have hqin : q ∈ removeFromSet parts sid :=
                  mem_removeFromSet_iff.mpr ⟨hmemq, hq⟩
                rw [hrempty] at hqin
                cases hqin
          · rw [alistGet_alistDelete_ne _ _ _ hroom]
            by_cases hq : q = sid
            · subst hq
              rw [alistGet_alistDelete_self]
              constructor
              · intro hmem2
                obtain ⟨sess, hget, hrid⟩ := (hmem roomId q).mp hmem2
                rw [hs] at hget
                injection hget with hg
                subst hg
                exact absurd hrid.symm hroom
              · rintro ⟨sess, hget, _⟩
                cases hget
            · rw [alistGet_alistDelete_ne _ _ _ hq]
              exact hmem roomId q
        · intro roomId participants hget
          by_cases hroom : roomId = session.roomId
          · subst hroom
            rw [alistGet_alistDelete_self] at hget
            cases hget
          · rw [alistGet_alistDelete_ne _ _ _ hroom] at hget
            exact hne roomId participants hget
      · rw [if_neg hlen]
        unfold IndexInv
        dsimp only
        constructor
        · intro roomId q
          by_cases hroom : roomId = session.roomId
          · subst hroom
            rw [alistGet_alistSet_self, Option.getD_some]
            rw [mem_removeFromSet_iff]
            by_cases hq : q = sid
            · subst hq
              rw [alistGet_alistDelete_self]
              constructor
              · rintro ⟨_, habs⟩
                exact absurd rfl habs
              · rintro ⟨sess, hget, _⟩
                cases hget
            · rw [alistGet_alistDelete_ne _ _ _ hq]
              have hold := hmem session.roomId q
              rw [hp, Option.getD_some] at hold
              constructor
              · rintro ⟨hin, _⟩
                exact hold.mp hin
              · intro hex
                exact ⟨hold.mpr hex, hq⟩
          · rw [alistGet_alistSet_ne _ _ _ _ hroom]
            by_cases hq : q = sid
            · subst hq
              rw [alistGet_alistDelete_self]
              constructor
              · intro hmem2
                obtain ⟨sess, hget, hrid⟩ := (hmem roomId q).mp hmem2
                rw [hs] at hget
                injection hget with hg
                subst hg
                exact absurd hrid.symm hroom
              · rintro ⟨sess, hget, _⟩
                cases hget
            · rw [alistGet_alistDelete_ne _ _ _ hq]
              exact hmem roomId q
        · intro roomId participants hget
          by_cases hroom : roomId = session.roomId
          · subst hroom
            rw [alistGet_alistSet_self] at hget
            injection hget with hg
            subst hg
            intro hnil
            rw [hnil] at hlen
            exact hlen rfl
          · rw [alistGet_alistSet_ne _ _ _ _ hroom] at hget
            exact hne roomId participants hget

theorem indexInv_applyRegOps : ∀ (ops : List RegOp) (S : WsState),
    IndexInv S → FreshRegOps S ops → IndexInv (applyRegOps S ops)
  | [], _, hI, _ => hI
  | .create s :: ops, S, hI, hf =>
    indexInv_applyRegOps ops _ (indexInv_createSession s hI hf.1) hf.2
  | .delete sid :: ops, S, hI, hf =>
    indexInv_applyRegOps ops _ (indexInv_deleteSession sid hI) hf

/-- C7: corrected.  Starting from a fresh process, as long as every
`createSession` happens for a socket with no current session, the
membership index maps each room id to exactly the set of sockets whose
current session has that room id, with empty entries pruned.  Without that
freshness precondition the claim fails (see the counterexample): a second
`createSession` for the same socket strands the socket in its old room's
entry. -/
theorem C7_membership_index :
    (∀ rooms : List Room, IndexInv (initState rooms)) ∧
    (∀ (S : WsState) (ops : List RegOp), IndexInv S → FreshRegOps S ops →
      IndexInv (applyRegOps S ops)) :=
  ⟨indexInv_initState, fun S ops hI hf => indexInv_applyRegOps ops S hI hf⟩

/-- C7 witness: the invariant after a concrete fresh create/delete/create
sequence from a fresh process. -/
theorem C7_membership_index_witness :
    IndexInv (applyRegOps (initState [])
      [.create ⟨"s1", "room-a", .patient, none, "en"⟩,
       .delete "s1",
       .create ⟨"s2", "room-b", .doctor, some "D1", "en"⟩]) :=
  C7_membership_index.2 (initState [])
    [.create ⟨"s1", "room-a", .patient, none, "en"⟩,
     .delete "s1",
     .create ⟨"s2", "room-b", .doctor, some "D1", "en"⟩]
    (C7_membership_index.1 [])
    ⟨rfl, rfl, trivial⟩

/-- C7 counterexample: two `createSession`s for the same socket leave the
index mapping `room-a` to a socket whose session is in `room-b`; a
following `deleteSession` then leaves a stale non-empty `room-a` entry
although no session at all remains. -/
theorem C7_counterexample :
    alistGet (applyRegOps (initState [])
      [.create ⟨"s1", "room-a", .patient, none, "en"⟩,
       .create ⟨"s1", "room-b", .patient, none, "en"⟩]).roomParticipants "room-a" =
      some ["s1"] ∧
    alistGet (applyRegOps (initState [])
      [.create ⟨"s1", "room-a", .patient, none, "en"⟩,
       .create ⟨"s1", "room-b", .patient, none, "en"⟩]).sessions "s1" =
      some ⟨"s1", "room-b", .patient, none, "en"⟩ ∧
    alistGet (applyRegOps (initState [])
      [.create ⟨"s1", "room-a", .patient, none, "en"⟩,
       .create ⟨"s1", "room-b", .patient, none, "en"⟩,
       .delete "s1"]).roomParticipants "room-a" = some ["s1"] ∧
    alistGet (applyRegOps (initState [])
      [.create ⟨"s1", "room-a", .patient, none, "en"⟩,
       .create ⟨"s1", "room-b", .patient, none, "en"⟩,
       .delete "s1"]).sessions "s1" = none := by
  refine ⟨?_, ?_, ?_, ?_⟩ <;> decide

end HealthChat
